import Mathlib

/-!
Smart Mobile Console Application: a verification development.

A shallow embedding of `src/main.cpp` (contacts and messages, the device
`MobilePhone`, contact persistence, and the three games) together with the
properties proved about it.

Conventions of the embedding.

* `std::string` is `String`; the text of a file is a `List Char`.
* A `Contact&` or `Contact*` into a `vector<Contact>` is an index into the list
  that models the vector, so two references may alias.
* `int` values read from the console are `Int`; `double` is `Float`.
* Console input is an explicit list of the values read; console output is an
  explicit list of output events.
-/

namespace SmartMobile

/-! ## Messages and contacts -/

/-- Class `Message`: three strings set once by the constructor. -/
structure Message where
  sender : String
  recipient : String
  content : String
deriving DecidableEq

/-- Class `Contact`: a name, a phone number and the vector of messages. -/
structure Contact where
  name : String
  phoneNumber : String
  messages : List Message
deriving DecidableEq

/-- Constructor `Contact(_name, _phoneNumber)`: the message vector starts empty. -/
def Contact.new (_name _phoneNumber : String) : Contact :=
  { name := _name, phoneNumber := _phoneNumber, messages := [] }

/-- Method `Contact::getName`. -/
def Contact.getName (c : Contact) : String := c.name

/-- Method `Contact::receiveMessage`: `messages.push_back(message)`. -/
def Contact.receiveMessage (c : Contact) (message : Message) : Contact :=
  { c with messages := c.messages ++ [message] }

/-- Method `Contact::sendMessage`, on a store of contacts in which `self` is the
index of `*this` and `recipient` the index of the reference argument (the two
may be the same object). The three statements of the body are executed in the
order of the source. References always denote an object, so the last case, an
index outside the store, does not arise from the source. -/
def Contact.sendMessage (store : List Contact) (self recipient : Nat)
    (content : String) : List Contact :=
  match store[self]?, store[recipient]? with
  | some s, some r =>
    let newMessage : Message := ⟨s.name, r.name, content⟩
    let store1 := store.modify (fun c => c.receiveMessage newMessage) recipient
    store1.modify (fun c => { c with messages := c.messages ++ [newMessage] }) self
  | _, _ => store

/-- Method `Contact::displayMessages`: the `From:` and `Content:` lines printed,
one pair per stored message, in order. -/
def Contact.displayMessages (c : Contact) : List (String × String) :=
  c.messages.map fun message => (message.sender, message.content)

/-! ## Calculators -/

/-- The two concrete subclasses of `Calculator`. -/
inductive Calculator where
  | basic
  | scientific
deriving DecidableEq

/-- Virtual method `Calculator::calculate`, dispatched on the subclass. -/
def Calculator.calculate : Calculator → Float → Float → Float
  | .basic, operand1, operand2 => operand1 + operand2
  | .scientific, operand1, operand2 => operand1 * operand2

/-! ## Game states -/

/-- A 3 by 3 board of characters (`vector<vector<char>>` with three rows of three). -/
abbrev Board := Fin 3 → Fin 3 → Char

/-- Class `TicTacToe`. -/
structure TicTacToe where
  board : Board
  currentPlayer : Char
  gameOver : Bool

/-- Class `NumberGuessingGame`. -/
structure NumberGuessingGame where
  numberToGuess : Int
  gameOver : Bool
deriving DecidableEq

/-- The three concrete subclasses of `Game` (`RockPaperScissorsGame` has no fields). -/
inductive Game where
  | ticTacToe (g : TicTacToe)
  | numberGuessing (g : NumberGuessingGame)
  | rockPaperScissors

/-! ## The device -/

/-- Class `MobilePhone`; a null `calculator` or `game` pointer is `none`. -/
structure MobilePhone where
  contacts : List Contact
  calculator : Option Calculator
  game : Option Game
  calculatorResults : List (String × Float)

/-- Constructor `MobilePhone()`. -/
def MobilePhone.new : MobilePhone :=
  { contacts := [], calculator := none, game := none, calculatorResults := [] }

/-- Method `MobilePhone::addContact`. -/
def MobilePhone.addContact (p : MobilePhone) (contact : Contact) : MobilePhone :=
  { p with contacts := p.contacts ++ [contact] }

/-- Method `MobilePhone::setCalculator`: the previous calculator, if any, is
deleted and the argument `calc` (possibly a null pointer) installed. -/
def MobilePhone.setCalculator (p : MobilePhone) (calc_ : Option Calculator) : MobilePhone :=
  { p with calculator := calc_ }

/-- Method `MobilePhone::setGame`: the previous game, if any, is deleted and the
argument (possibly a null pointer) installed. -/
def MobilePhone.setGame (p : MobilePhone) (_game : Option Game) : MobilePhone :=
  { p with game := _game }

/-- The result of a call of `MobilePhone::calculate`: the value returned,
whether the line "No calculator installed." was written, and the device
afterwards. -/
structure CalcRun where
  value : Float
  noCalculator : Bool
  phone : MobilePhone

/-- Method `MobilePhone::calculate`: it delegates to the installed calculator,
or writes the line and returns 0.0 when the pointer is null; neither branch
assigns to a member of the device. -/
def MobilePhone.calculate (p : MobilePhone) (operand1 operand2 : Float) : CalcRun :=
  match p.calculator with
  | some calculator =>
    { value := calculator.calculate operand1 operand2, noCalculator := false, phone := p }
  | none => { value := 0.0, noCalculator := true, phone := p }

/-- Method `MobilePhone::performAndStoreCalculation`:
`double result = calculate(operand1, operand2);` followed by
`calculatorResults.emplace_back(description, result);`. -/
def MobilePhone.performAndStoreCalculation (p : MobilePhone) (operand1 operand2 : Float)
    (description : String) : MobilePhone :=
  let run := p.calculate operand1 operand2
  { run.phone with
    calculatorResults := run.phone.calculatorResults ++ [(description, run.value)] }

/-- The range-for loop of `MobilePhone::sendMessage` over the contacts from
index `i` on: every contact whose name matches overwrites the corresponding
pointer (there is no `break`). -/
def findContacts (senderName recipientName : String) :
    List Contact → Nat → Option Nat → Option Nat → Option Nat × Option Nat
  | [], _, sender, recipient => (sender, recipient)
  | contact :: rest, i, sender, recipient =>
    let sender := if contact.getName = senderName then some i else sender
    let recipient := if contact.getName = recipientName then some i else recipient
    findContacts senderName recipientName rest (i + 1) sender recipient

/-- Method `MobilePhone::sendMessage`. -/
def MobilePhone.sendMessage (p : MobilePhone)
    (senderName recipientName content : String) : MobilePhone :=
  match findContacts senderName recipientName p.contacts 0 none none with
  | (some sender, some recipient) =>
    { p with contacts := Contact.sendMessage p.contacts sender recipient content }
  | _ => p

/-- Menu action 4 of `main` (view messages): the loop over `getContacts()` that
displays the first contact whose name matches and then breaks; `none` when no
contact matches and nothing is printed. -/
def viewMessages : List Contact → String → Option (List (String × String))
  | [], _ => none
  | contact :: rest, contactName =>
    if contact.getName = contactName then some contact.displayMessages
    else viewMessages rest contactName

/-! ## Persistence of contacts -/

/-- The function `isspace` of the classic locale, which delimits the words read
by `operator>>` into a `std::string`. -/
def isspace (c : Char) : Bool :=
  c = ' ' || c = '\t' || c = '\n' || c = '\x0b' || c = '\x0c' || c = '\r'

/-- An input file stream: the characters not yet read and the fail bit. -/
structure IStream where
  rest : List Char
  fail : Bool
deriving DecidableEq

/-- Leading whitespace skipped by the sentry of a formatted input function. -/
def skipSpace : List Char → List Char
  | [] => []
  | c :: cs => if isspace c then skipSpace cs else c :: cs

/-- The characters extracted up to the next whitespace character or the end of
the text, and the characters left in the stream. -/
def takeWord : List Char → List Char × List Char
  | [] => ([], [])
  | c :: cs =>
    if isspace c then ([], c :: cs)
    else ((takeWord cs).1.cons c, (takeWord cs).2)

/-- The library function `operator>>(istream&, string&)`; `str` is the old value
of the target, kept when the extraction fails. -/
def extractString (is : IStream) (str : String) : IStream × String :=
  if is.fail then (is, str)
  else
    match skipSpace is.rest with
    | [] => ({ rest := [], fail := true }, str)
    | c :: cs => ({ rest := (takeWord (c :: cs)).2, fail := false },
                  String.mk (takeWord (c :: cs)).1)

/-- The function `operator>>(istream&, Contact&)`:
`is >> contact.name >> contact.phoneNumber`. -/
def extractContact (is : IStream) (contact : Contact) : IStream × Contact :=
  let r1 := extractString is contact.name
  let r2 := extractString r1.1 contact.phoneNumber
  (r2.1, { contact with name := r1.2, phoneNumber := r2.2 })

/-- The function `operator<<(ostream&, const Contact&)`:
`os << contact.name << " " << contact.phoneNumber`, on the text written so far. -/
def insertContact (os : List Char) (contact : Contact) : List Char :=
  os ++ contact.name.data ++ [' '] ++ contact.phoneNumber.data

/-- Method `MobilePhone::saveContactsToFile`: `opened` tells whether the output
file could be opened. The result is the text of the file afterwards, `none`
when it was not opened and nothing was written. -/
def MobilePhone.saveContactsToFile (p : MobilePhone) (opened : Bool) : Option (List Char) :=
  if opened then
    some (p.contacts.foldl (fun file contact => insertContact file contact ++ ['\n']) [])
  else none

/-- The loop `while (file >> contact) contacts.push_back(contact);` of
`MobilePhone::loadContactsFromFile`, with `fuel` bounding the number of
iterations; `none` when the fuel runs out before the stream fails. -/
def loadLoop : Nat → IStream → Contact → List Contact → Option (List Contact)
  | 0, _, _, _ => none
  | fuel + 1, file, contact, contacts =>
    if (extractContact file contact).1.fail then some contacts
    else loadLoop fuel (extractContact file contact).1 (extractContact file contact).2
      (contacts ++ [(extractContact file contact).2])

/-- Method `MobilePhone::loadContactsFromFile`: `file` is the text of the file,
`none` when it cannot be opened. Every iteration of the loop that does not
fail consumes at least one character, so the length of the text plus one is
enough fuel (theorem `loadContactsFromFile_total`). -/
def MobilePhone.loadContactsFromFile (p : MobilePhone) (file : Option (List Char)) :
    Option MobilePhone :=
  match file with
  | none => some p
  | some text =>
    (loadLoop (text.length + 1) { rest := text, fail := false } (Contact.new "" "")
      p.contacts).map fun contacts => { p with contacts := contacts }

/-- The text that the loop of `saveContactsToFile` writes for a list of
contacts: per contact the name, one space, the phone number and a newline. -/
def savedText : List Contact → List Char
  | [] => []
  | contact :: rest =>
    contact.name.data ++ ' ' :: (contact.phoneNumber.data ++ '\n' :: savedText rest)

/-- A text field that can be written to the contacts file and read back: it is
not empty and holds no whitespace character. -/
def IsWord (s : String) : Prop :=
  s ≠ "" ∧ ∀ ch ∈ s.data, isspace ch = false

/-- A text field without any whitespace character (it may be empty). -/
def NoSpace (s : String) : Prop :=
  ∀ ch ∈ s.data, isspace ch = false

/-- The words of a text in the sense of the file format: the text is split at
every whitespace character and the empty pieces are dropped. -/
def fileWords (text : List Char) : List (List Char) :=
  (text.splitOnP isspace).filter fun w => !w.isEmpty

/-- One contact with an empty history per complete pair of consecutive words
(name, then phone number), in order; a single word left at the end is dropped. -/
def pairContacts : List (List Char) → List Contact
  | name :: phoneNumber :: rest =>
    Contact.new (String.mk name) (String.mk phoneNumber) :: pairContacts rest
  | _ => []

/-! ## Tic-tac-toe -/

/-- Constructor `TicTacToe()`: nine blanks, player X to move, game not over. -/
def TicTacToe.new : TicTacToe :=
  { board := fun _ _ => ' ', currentPlayer := 'X', gameOver := false }

/-- The value of `board[row][col]` for `int` subscripts; `none` stands for a
subscript outside the vector, which is undefined behaviour in the source. -/
def cellAt (b : Board) (row col : Int) : Option Char :=
  if h : 0 ≤ row ∧ row < 3 ∧ 0 ≤ col ∧ col < 3 then
    some (b ⟨row.toNat, by omega⟩ ⟨col.toNat, by omega⟩)
  else none

/-- The assignment `board[row][col] = ch`. It is executed only after
`isMoveValid(row, col)` returned true, so the subscripts are in range. -/
def setCell (b : Board) (row col : Int) (ch : Char) : Board :=
  fun i j => if (i.val : Int) = row ∧ (j.val : Int) = col then ch else b i j

/-- Method `TicTacToe::switchPlayer`. -/
def TicTacToe.switchPlayer (g : TicTacToe) : TicTacToe :=
  { g with currentPlayer := if g.currentPlayer = 'X' then 'O' else 'X' }

/-- Method `TicTacToe::isMoveValid`. The conjunction is evaluated left to right
with short circuit, so the board is read only when the four range tests passed;
`none` would mean that the board was subscripted out of range. -/
def TicTacToe.isMoveValid (g : TicTacToe) (row col : Int) : Option Bool :=
  if row ≥ 0 ∧ row < 3 ∧ col ≥ 0 ∧ col < 3 then
    (cellAt g.board row col).map fun ch => decide (ch = ' ')
  else some false

/-- Method `TicTacToe::isGameOver`. -/
def TicTacToe.isGameOver (g : TicTacToe) : Bool := g.gameOver

/-- Method `TicTacToe::checkWin`: the returned flag and the game afterwards
(`gameOver` is set on every path that returns true). The loop over `i` tests
row `i` and then column `i`; the two diagonals follow. -/
def TicTacToe.checkWin (g : TicTacToe) : Bool × TicTacToe :=
  let b := g.board
  let p := g.currentPlayer
  if [(0 : Fin 3), 1, 2].any (fun i =>
      (b i 0 == p && b i 1 == p && b i 2 == p) ||
      (b 0 i == p && b 1 i == p && b 2 i == p)) then
    (true, { g with gameOver := true })
  else if b 0 0 == p && b 1 1 == p && b 2 2 == p then
    (true, { g with gameOver := true })
  else if b 0 2 == p && b 1 1 == p && b 2 0 == p then
    (true, { g with gameOver := true })
  else (false, g)

/-- Method `TicTacToe::isBoardFull`: false as soon as a blank cell is found. -/
def TicTacToe.isBoardFull (g : TicTacToe) : Bool :=
  [(0 : Fin 3), 1, 2].all fun i => [(0 : Fin 3), 1, 2].all fun j => g.board i j != ' '

/-- What `TicTacToe::play` writes to the console. -/
inductive TttOut where
  | board (b : Board)
  | prompt (player : Char)
  | wins (player : Char)
  | draw
  | invalidMove

/-- The effect of the part of one iteration of the loop of `TicTacToe::play`
that follows the input: the game afterwards, the output written, and whether the
loop was left through `break`. -/
structure TttStep where
  game : TicTacToe
  out : List TttOut
  broke : Bool

/-- The statement `board[row][col] = currentPlayer;` of `TicTacToe::play`. -/
def TicTacToe.placeMark (g : TicTacToe) (row col : Int) : TicTacToe :=
  { g with board := setCell g.board row col g.currentPlayer }

/-- The body of the loop of `TicTacToe::play` after `cin >> row >> col` has
read `row` and `col`; `none` if the board were subscripted out of range. -/
def TicTacToe.loopBody (g : TicTacToe) (row col : Int) : Option TttStep :=
  match g.isMoveValid row col with
  | none => none
  | some true =>
    let g1 : TicTacToe := g.placeMark row col
    if g1.checkWin.1 then
      some { game := g1.checkWin.2,
             out := [.board g1.checkWin.2.board, .wins g1.checkWin.2.currentPlayer],
             broke := false }
    else if g1.checkWin.2.isBoardFull then
      some { game := g1.checkWin.2, out := [.board g1.checkWin.2.board, .draw], broke := true }
    else
      some { game := g1.checkWin.2.switchPlayer, out := [], broke := false }
  | some false => some { game := g, out := [.invalidMove], broke := false }

/-- How a call of `play` ended on a finite list of inputs: it returned, it is
still in its loop waiting for the next move, or it ran into undefined behaviour. -/
inductive PlayStatus where
  | returned
  | awaitingInput
  | undefined
deriving DecidableEq

/-- The result of a call of `TicTacToe::play`: the game afterwards, the inputs
not read, the output written and how the call ended. -/
structure TttRun where
  game : TicTacToe
  input : List (Int × Int)
  out : List TttOut
  status : PlayStatus

/-- Method `TicTacToe::play` on the list of (row, col) pairs that `cin` delivers.
Each iteration tests `!isGameOver()`, displays the board, prompts, reads one
pair and runs the body; the recursion is on the input list. When the list is
used up while the game is not over, the call has displayed the board and the
prompt and is waiting for the next move. -/
def TicTacToe.play : TicTacToe → List (Int × Int) → TttRun
  | g, [] =>
    if g.isGameOver then { game := g, input := [], out := [], status := .returned }
    else { game := g, input := [], out := [.board g.board, .prompt g.currentPlayer],
           status := .awaitingInput }
  | g, (row, col) :: rest =>
    if g.isGameOver then
      { game := g, input := (row, col) :: rest, out := [], status := .returned }
    else
      match g.loopBody row col with
      | none => { game := g, input := rest, out := [.board g.board, .prompt g.currentPlayer],
                  status := .undefined }
      | some r =>
        if r.broke then
          { game := r.game, input := rest,
            out := [.board g.board, .prompt g.currentPlayer] ++ r.out, status := .returned }
        else
          { game := (TicTacToe.play r.game rest).game,
            input := (TicTacToe.play r.game rest).input,
            out := [.board g.board, .prompt g.currentPlayer] ++ r.out ++
              (TicTacToe.play r.game rest).out,
            status := (TicTacToe.play r.game rest).status }

/-- The states of a game that calls of `play` can reach from a freshly
constructed game: the closure of the fresh game under iterations of the loop,
which run only while the game is not over. -/
inductive TicTacToe.Reachable : TicTacToe → Prop where
  | fresh : TicTacToe.Reachable TicTacToe.new
  | step (g : TicTacToe) (row col : Int) (r : TttStep) :
      TicTacToe.Reachable g → g.isGameOver = false → g.loopBody row col = some r →
      TicTacToe.Reachable r.game

/-- The eight lines of the board: three rows, three columns, two diagonals. -/
def boardLines : List (List (Fin 3 × Fin 3)) :=
  [[(0, 0), (0, 1), (0, 2)], [(1, 0), (1, 1), (1, 2)], [(2, 0), (2, 1), (2, 2)],
   [(0, 0), (1, 0), (2, 0)], [(0, 1), (1, 1), (2, 1)], [(0, 2), (1, 2), (2, 2)],
   [(0, 0), (1, 1), (2, 2)], [(0, 2), (1, 1), (2, 0)]]

/-- The win condition in the words of the specification: some row, some column
or one of the two diagonals holds three equal non-empty cells. -/
def HasLine (b : Board) : Prop :=
  ∃ l ∈ boardLines, ∃ ch : Char, ch ≠ ' ' ∧ ∀ cell ∈ l, b cell.1 cell.2 = ch

/-- A line whose three cells all hold the mark `p`. -/
def HasLineOf (b : Board) (p : Char) : Prop :=
  ∃ l ∈ boardLines, ∀ cell ∈ l, b cell.1 cell.2 = p

/-- The invariant of the reachable states: the player to move is X or O, and
while the game is not over no line of the board is complete. -/
structure TicTacToe.Inv (g : TicTacToe) : Prop where
  player : g.currentPlayer = 'X' ∨ g.currentPlayer = 'O'
  noLine : g.gameOver = false → ¬ HasLine g.board

/-- The nine cells of the board, row by row. -/
def allCells : List (Fin 3 × Fin 3) :=
  [(0, 0), (0, 1), (0, 2), (1, 0), (1, 1), (1, 2), (2, 0), (2, 1), (2, 2)]

/-- The number of cells of the board that hold the character `ch`. -/
def countCells (b : Board) (ch : Char) : Nat :=
  allCells.countP fun cell => b cell.1 cell.2 == ch

/-- The number of non-empty cells of the board. -/
def countMarks (b : Board) : Nat :=
  allCells.countP fun cell => b cell.1 cell.2 != ' '

/-- The states that calls of `play` can reach from a freshly constructed game,
together with the number of moves accepted on the way: an iteration of the loop
whose move is valid counts, one whose move is rejected does not. -/
inductive TicTacToe.ReachedAfter : Nat → TicTacToe → Prop where
  | fresh : TicTacToe.ReachedAfter 0 TicTacToe.new
  | accepted (k : Nat) (g : TicTacToe) (row col : Int) (r : TttStep) :
      TicTacToe.ReachedAfter k g → g.isGameOver = false →
      g.isMoveValid row col = some true → g.loopBody row col = some r →
      TicTacToe.ReachedAfter (k + 1) r.game
  | rejected (k : Nat) (g : TicTacToe) (row col : Int) (r : TttStep) :
      TicTacToe.ReachedAfter k g → g.isGameOver = false →
      g.isMoveValid row col = some false → g.loopBody row col = some r →
      TicTacToe.ReachedAfter k r.game

/-- The first `n` inputs of an endless sequence of moves. -/
def inputPrefix (moves : Nat → Int × Int) (n : Nat) : List (Int × Int) :=
  (List.range n).map moves

/-- Whether an output event is the line "Invalid move. Try again.". -/
def TttOut.isInvalidMove : TttOut → Bool
  | .invalidMove => true
  | _ => false

/-- The number of moves that a call of `play` rejected: the number of
invalid-move lines it wrote. -/
def TttRun.rejected (r : TttRun) : Nat :=
  r.out.countP TttOut.isInvalidMove

/-- The number of moves that a call of `play` on `inputs` accepted: the moves
it read, less those it rejected. -/
def TttRun.accepted (r : TttRun) (inputs : List (Int × Int)) : Nat :=
  inputs.length - r.input.length - r.rejected

/-- Nine moves after which the board is full and no line is complete. -/
def drawMoves : List (Int × Int) :=
  [(0, 0), (0, 1), (0, 2), (1, 1), (1, 0), (1, 2), (2, 1), (2, 0), (2, 2)]

/-- Four moves after which no line is complete and X can complete the top row
with a move to (0, 2). -/
def fourMoves : List (Int × Int) :=
  [(0, 0), (1, 0), (0, 1), (1, 1)]

/-- Eight moves that complete no line and leave only the cell (2, 2) blank, where
X then completes a diagonal with the ninth move. -/
def eightMoves : List (Int × Int) :=
  [(0, 0), (0, 1), (0, 2), (1, 0), (1, 1), (1, 2), (2, 1), (2, 0)]

/-! ## Number guessing -/

/-- Constructor `NumberGuessingGame()`, where `r` is the value that `rand()`
returns after the generator has been seeded. -/
def NumberGuessingGame.new (r : Nat) : NumberGuessingGame :=
  { numberToGuess := (r % 100 + 1 : Nat), gameOver := false }

/-- What the loop of `NumberGuessingGame::play` writes to the console. -/
inductive GuessOut where
  | prompt
  | invalidGuess
  | tooLow
  | tooHigh
  | correct
deriving DecidableEq

/-- The body of the loop of `NumberGuessingGame::play` after `cin >> guess`: the
game afterwards and the feedback written. -/
def NumberGuessingGame.loopBody (g : NumberGuessingGame) (guess : Int) :
    NumberGuessingGame × List GuessOut :=
  if guess < 1 ∨ guess > 100 then (g, [.invalidGuess])
  else if guess < g.numberToGuess then (g, [.tooLow])
  else if guess > g.numberToGuess then (g, [.tooHigh])
  else ({ g with gameOver := true }, [.correct])

/-- The loop of `NumberGuessingGame::play` on the list of guesses that `cin`
delivers (the two welcome lines are left out): the game afterwards, the guesses
not read, the output, and whether the call returned. -/
def NumberGuessingGame.play :
    NumberGuessingGame → List Int → NumberGuessingGame × List Int × List GuessOut × PlayStatus
  | g, [] => if g.gameOver then (g, [], [], .returned) else (g, [], [.prompt], .awaitingInput)
  | g, guess :: rest =>
    if g.gameOver then (g, guess :: rest, [], .returned)
    else
      let r := NumberGuessingGame.play (g.loopBody guess).1 rest
      (r.1, r.2.1, [.prompt] ++ (g.loopBody guess).2 ++ r.2.2.1, r.2.2.2)

/-! ## Rock, paper, scissors -/

/-- The three results of a round. -/
inductive RpsOutcome where
  | draw
  | userWins
  | computerWins
deriving DecidableEq

/-- The if-chain of `RockPaperScissorsGame::play` that decides a round. -/
def rpsOutcome (userChoice computerChoice : Int) : RpsOutcome :=
  if userChoice = computerChoice then .draw
  else if (userChoice = 1 ∧ computerChoice = 3) ∨
          (userChoice = 2 ∧ computerChoice = 1) ∨
          (userChoice = 3 ∧ computerChoice = 2) then .userWins
  else .computerWins

/-- The random source behind `rand()`: the sequence of values it returns and
the number of values drawn so far. -/
structure RandomSource where
  values : Nat → Nat
  drawn : Nat

/-- A call of `rand()`: the value returned and the source afterwards. -/
def RandomSource.rand (s : RandomSource) : Nat × RandomSource :=
  (s.values s.drawn, { s with drawn := s.drawn + 1 })

/-- What a round of `RockPaperScissorsGame::play` writes to the console. -/
inductive RpsOut where
  | invalidChoice
  | computerChose (c : Int)
  | result (o : RpsOutcome)
deriving DecidableEq

/-- One iteration of the loop of `RockPaperScissorsGame::play` from the test of
`userChoice` to the report of the result: the output written and the random
source afterwards. An invalid choice reaches `continue` before `rand()`. -/
def RockPaperScissorsGame.round (userChoice : Int) (random : RandomSource) :
    List RpsOut × RandomSource :=
  if userChoice < 1 ∨ userChoice > 3 then ([.invalidChoice], random)
  else
    let computerChoice : Int := ((random.rand.1 % 3 + 1 : Nat) : Int)
    ([.computerChose computerChoice, .result (rpsOutcome userChoice computerChoice)],
     random.rand.2)

/-- The device of the concrete scenario: Alice and Bob added, in this order, to
a device without contacts. -/
def aliceAndBob : MobilePhone :=
  (MobilePhone.new.addContact (Contact.new "Alice" "111")).addContact (Contact.new "Bob" "222")

/-- The device used to exhibit name resolution with a duplicated name: two
contacts named Bob around one named Alice. -/
def duplicateBobs : MobilePhone :=
  (((MobilePhone.new.addContact (Contact.new "Bob" "111")).addContact
    (Contact.new "Alice" "222")).addContact (Contact.new "Bob" "333"))

/-! # Theorems -/

/-! ## Sending a message between two contacts -/

theorem findContacts_absent_sender (senderName recipientName : String) :
    ∀ (cs : List Contact) (i : Nat) (s r : Option Nat),
      (∀ c ∈ cs, c.name ≠ senderName) →
      (findContacts senderName recipientName cs i s r).1 = s
  | [], _, _, _, _ => rfl
  | c :: cs, i, s, r, h => by
    have hc : c.name ≠ senderName := h c (List.mem_cons_self _ _)
    simp only [findContacts, Contact.getName, if_neg hc]
    exact findContacts_absent_sender senderName recipientName cs (i + 1) s _
      (fun d hd => h d (List.mem_cons_of_mem _ hd))

theorem findContacts_absent_recipient (senderName recipientName : String) :
    ∀ (cs : List Contact) (i : Nat) (s r : Option Nat),
      (∀ c ∈ cs, c.name ≠ recipientName) →
      (findContacts senderName recipientName cs i s r).2 = r
  | [], _, _, _, _ => rfl
  | c :: cs, i, s, r, h => by
    have hc : c.name ≠ recipientName := h c (List.mem_cons_self _ _)
    simp only [findContacts, Contact.getName, if_neg hc]
    exact findContacts_absent_recipient senderName recipientName cs (i + 1) _ r
      (fun d hd => h d (List.mem_cons_of_mem _ hd))

/-- C1: `Contact::sendMessage` called on the contact at index `i` with the
distinct contact at index `j` as recipient appends exactly the one message
(sender = name of `i`, recipient = name of `j`, the given content, which may be
empty) to the end of both histories; the earlier entries, the names and phone
numbers of both, and every other contact of the store are unchanged. -/
theorem Contact.sendMessage_distinct (store : List Contact) (i j : Nat)
    (content : String) (a b : Contact)
    (ha : store[i]? = some a) (hb : store[j]? = some b) (hij : i ≠ j) :
    (Contact.sendMessage store i j content)[i]? =
        some { name := a.name, phoneNumber := a.phoneNumber,
               messages := a.messages ++ [⟨a.name, b.name, content⟩] } ∧
    (Contact.sendMessage store i j content)[j]? =
        some { name := b.name, phoneNumber := b.phoneNumber,
               messages := b.messages ++ [⟨a.name, b.name, content⟩] } ∧
    (Contact.sendMessage store i j content).length = store.length ∧
    ∀ k, k ≠ i → k ≠ j → (Contact.sendMessage store i j content)[k]? = store[k]? := by
  have hji : j ≠ i := fun h => hij h.symm
  simp only [Contact.sendMessage, ha, hb]
  refine ⟨?_, ?_, ?_, ?_⟩
  · rw [List.getElem?_modify_eq, List.getElem?_modify_ne _ _ hji, ha]
    rfl
  · rw [List.getElem?_modify_ne _ _ hij, List.getElem?_modify_eq, hb]
    rfl
  · simp
  · intro k hki hkj
    rw [List.getElem?_modify_ne _ _ (Ne.symm hki), List.getElem?_modify_ne _ _ (Ne.symm hkj)]

/-- Witness for C1: Alice (index 0) sends the empty text to Bob (index 1). -/
theorem Contact.sendMessage_distinct_witness :
    (Contact.sendMessage [Contact.new "Alice" "111", Contact.new "Bob" "222"] 0 1 "")[0]? =
        some { name := "Alice", phoneNumber := "111",
               messages := [] ++ [⟨"Alice", "Bob", ""⟩] } ∧
    (Contact.sendMessage [Contact.new "Alice" "111", Contact.new "Bob" "222"] 0 1 "")[1]? =
        some { name := "Bob", phoneNumber := "222",
               messages := [] ++ [⟨"Alice", "Bob", ""⟩] } ∧
    (Contact.sendMessage [Contact.new "Alice" "111", Contact.new "Bob" "222"] 0 1 "").length =
        [Contact.new "Alice" "111", Contact.new "Bob" "222"].length ∧
    ∀ k, k ≠ 0 → k ≠ 1 →
      (Contact.sendMessage [Contact.new "Alice" "111", Contact.new "Bob" "222"] 0 1 "")[k]? =
        [Contact.new "Alice" "111", Contact.new "Bob" "222"][k]? :=
  Contact.sendMessage_distinct [Contact.new "Alice" "111", Contact.new "Bob" "222"] 0 1 ""
    (Contact.new "Alice" "111") (Contact.new "Bob" "222") rfl rfl (by decide)

/-- C2 (evaluation of the code): with two contacts named Bob, sending from Alice
to Bob appends the message to the history of the LAST Bob (index 2); the first
Bob (index 0) keeps an empty history, and the view-messages action of `main`,
which stops at the first match, shows no message for Bob. -/
theorem MobilePhone.sendMessage_duplicate_last_match :
    ((duplicateBobs.sendMessage "Alice" "Bob" "hi").contacts.map Contact.messages =
      [[], [⟨"Alice", "Bob", "hi"⟩], [⟨"Alice", "Bob", "hi"⟩]]) ∧
    viewMessages (duplicateBobs.sendMessage "Alice" "Bob" "hi").contacts "Bob" = some [] := by
  decide

/-- C4: when no contact is named `senderName`, or no contact is named
`recipientName` (exact, case-sensitive string equality), `MobilePhone::sendMessage`
returns the device unchanged: contacts with their histories, names, numbers and
order, the installed calculator and game, and the calculation log. -/
theorem MobilePhone.sendMessage_unresolved (p : MobilePhone)
    (senderName recipientName content : String)
    (h : (∀ c ∈ p.contacts, c.name ≠ senderName) ∨
         (∀ c ∈ p.contacts, c.name ≠ recipientName)) :
    p.sendMessage senderName recipientName content = p := by
  unfold MobilePhone.sendMessage
  rcases h with h | h
  · have := findContacts_absent_sender senderName recipientName p.contacts 0 none none h
    generalize findContacts senderName recipientName p.contacts 0 none none = res at this
    obtain ⟨s, r⟩ := res
    simp only at this
    subst this
    rfl
  · have := findContacts_absent_recipient senderName recipientName p.contacts 0 none none h
    generalize findContacts senderName recipientName p.contacts 0 none none = res at this
    obtain ⟨s, r⟩ := res
    simp only at this
    subst this
    cases s <;> rfl

/-- Witness for C4: the name "alice" differs in case from the stored "Alice". -/
theorem MobilePhone.sendMessage_unresolved_witness :
    duplicateBobs.sendMessage "alice" "Bob" "hi" = duplicateBobs :=
  MobilePhone.sendMessage_unresolved duplicateBobs "alice" "Bob" "hi"
    (Or.inl (by decide))

/-! ## Sending through the device -/

theorem findContacts_unique_sender (senderName recipientName : String) :
    ∀ (cs : List Contact) (base : Nat) (s r : Option Nat) (i : Nat) (a : Contact),
      cs[i]? = some a → a.name = senderName →
      (∀ k c, cs[k]? = some c → c.name = senderName → k = i) →
      (findContacts senderName recipientName cs base s r).1 = some (base + i)
  | [], _, _, _, i, a, hi, _, _ => by simp at hi
  | c :: cs, base, s, r, 0, a, hi, ha, huniq => by
    have hca : c = a := by simpa using hi
    subst hca
    have habs : ∀ d ∈ cs, d.name ≠ senderName := by
      intro d hd hname
      obtain ⟨k, hk⟩ := List.getElem?_of_mem hd
      have := huniq (k + 1) d (by simpa using hk) hname
      omega
    simp only [findContacts, Contact.getName, ha, if_true]
    rw [findContacts_absent_sender senderName recipientName cs (base + 1) _ _ habs]
    rfl
  | c :: cs, base, s, r, i + 1, a, hi, ha, huniq => by
    have hc : c.name ≠ senderName := by
      intro hname
      have := huniq 0 c (by simp) hname
      omega
    simp only [findContacts, Contact.getName, if_neg hc]
    have ih := findContacts_unique_sender senderName recipientName cs (base + 1) s
      (if c.name = recipientName then some base else r) i a (by simpa using hi) ha
      (fun k d hk hd => by
        have := huniq (k + 1) d (by simpa using hk) hd
        omega)
    rw [ih, Nat.add_assoc, Nat.add_comm 1 i]

theorem findContacts_unique_recipient (senderName recipientName : String) :
    ∀ (cs : List Contact) (base : Nat) (s r : Option Nat) (j : Nat) (b : Contact),
      cs[j]? = some b → b.name = recipientName →
      (∀ k c, cs[k]? = some c → c.name = recipientName → k = j) →
      (findContacts senderName recipientName cs base s r).2 = some (base + j)
  | [], _, _, _, j, b, hj, _, _ => by simp at hj
  | c :: cs, base, s, r, 0, b, hj, hb, huniq => by
    have hcb : c = b := by simpa using hj
    subst hcb
    have habs : ∀ d ∈ cs, d.name ≠ recipientName := by
      intro d hd hname
      obtain ⟨k, hk⟩ := List.getElem?_of_mem hd
      have := huniq (k + 1) d (by simpa using hk) hname
      omega
    simp only [findContacts, Contact.getName, hb, if_true]
    rw [findContacts_absent_recipient senderName recipientName cs (base + 1) _ _ habs]
    rfl
  | c :: cs, base, s, r, j + 1, b, hj, hb, huniq => by
    have hc : c.name ≠ recipientName := by
      intro hname
      have := huniq 0 c (by simp) hname
      omega
    simp only [findContacts, Contact.getName, if_neg hc]
    have ih := findContacts_unique_recipient senderName recipientName cs (base + 1)
      (if c.name = senderName then some base else s) r j b (by simpa using hj) hb
      (fun k d hk hd => by
        have := huniq (k + 1) d (by simpa using hk) hd
        omega)
    rw [ih, Nat.add_assoc, Nat.add_comm 1 j]

theorem MobilePhone.sendMessage_resolved (p : MobilePhone)
    (senderName recipientName content : String) (i j : Nat) (a b : Contact)
    (hi : p.contacts[i]? = some a) (ha : a.name = senderName)
    (hui : ∀ k c, p.contacts[k]? = some c → c.name = senderName → k = i)
    (hj : p.contacts[j]? = some b) (hb : b.name = recipientName)
    (huj : ∀ k c, p.contacts[k]? = some c → c.name = recipientName → k = j) :
    p.sendMessage senderName recipientName content =
      { p with contacts := Contact.sendMessage p.contacts i j content } := by
  have h1 := findContacts_unique_sender senderName recipientName p.contacts 0 none none i a
    hi ha hui
  have h2 := findContacts_unique_recipient senderName recipientName p.contacts 0 none none j b
    hj hb huj
  unfold MobilePhone.sendMessage
  generalize findContacts senderName recipientName p.contacts 0 none none = res at h1 h2
  obtain ⟨s, r⟩ := res
  simp only [Nat.zero_add] at h1 h2
  subst h1 h2
  rfl

theorem Contact.sendMessage_getElem? (store : List Contact) (i j : Nat) (content : String)
    (a b : Contact) (ha : store[i]? = some a) (hb : store[j]? = some b) (k : Nat) :
    (Contact.sendMessage store i j content)[k]? =
      (store[k]?).map fun c =>
        { name := c.name, phoneNumber := c.phoneNumber,
          messages := c.messages ++
            (if j = k then [⟨a.name, b.name, content⟩] else []) ++
            (if i = k then [⟨a.name, b.name, content⟩] else []) } := by
  simp only [Contact.sendMessage, ha, hb, List.getElem?_modify, Contact.receiveMessage]
  cases store[k]? with
  | none => rfl
  | some c =>
    by_cases h1 : i = k <;> by_cases h2 : j = k <;> simp [h1, h2]

theorem Contact.sendMessage_map_fields (store : List Contact) (i j : Nat) (content : String) :
    (Contact.sendMessage store i j content).map (fun c => (c.name, c.phoneNumber)) =
      store.map (fun c => (c.name, c.phoneNumber)) := by
  unfold Contact.sendMessage
  split
  · rename_i s r hs hr
    apply List.ext_getElem?
    intro k
    simp only [List.getElem?_map, List.getElem?_modify]
    cases store[k]? with
    | none => rfl
    | some c =>
      by_cases h1 : i = k <;> by_cases h2 : j = k <;>
        simp [h1, h2, Contact.receiveMessage]
  · rfl

theorem nodup_names_unique (cs : List Contact) (h : (cs.map Contact.name).Nodup)
    (i : Nat) (a : Contact) (hi : cs[i]? = some a) :
    ∀ k c, cs[k]? = some c → c.name = a.name → k = i := by
  intro k c hk hc
  have hk2 : (cs.map Contact.name)[k]? = some a.name := by
    rw [List.getElem?_map, hk]; simp [hc]
  have hi2 : (cs.map Contact.name)[i]? = some a.name := by
    rw [List.getElem?_map, hi]; rfl
  have hkl : k < (cs.map Contact.name).length := (List.getElem?_eq_some.1 hk2).1
  have hil : i < (cs.map Contact.name).length := (List.getElem?_eq_some.1 hi2).1
  exact (List.Nodup.getElem_inj_iff h).1
    ((List.getElem?_eq_some.1 hk2).2.trans (List.getElem?_eq_some.1 hi2).2.symm)

/-- C11 (as stated, refuted): on the device whose only contact is Alice, with an
empty history, sending "hi" from Alice to Alice leaves two messages in her
history, not one. -/
theorem MobilePhone.sendMessage_self_twice :
    ((MobilePhone.new.addContact (Contact.new "Alice" "111")).sendMessage
        "Alice" "Alice" "hi").contacts.map Contact.messages =
      [[⟨"Alice", "Alice", "hi"⟩, ⟨"Alice", "Alice", "hi"⟩]] ∧
    (((MobilePhone.new.addContact (Contact.new "Alice" "111")).sendMessage
        "Alice" "Alice" "hi").contacts.map fun c => c.messages.length) ≠ [1] := by
  decide

/-- C11 (amended): for every device with exactly one contact named `n`, after
`sendMessage(n, n, content)` the history of that contact is its old history
followed by two copies of the message with sender `n`, recipient `n` and the
given content (so from an empty history it holds exactly these two messages);
its name and number and all other contacts are unchanged. -/
theorem MobilePhone.sendMessage_self (p : MobilePhone) (n content : String) (i : Nat)
    (a : Contact) (hi : p.contacts[i]? = some a) (ha : a.name = n)
    (huniq : ∀ k c, p.contacts[k]? = some c → c.name = n → k = i) :
    (p.sendMessage n n content).contacts[i]? =
      some { name := a.name, phoneNumber := a.phoneNumber,
             messages := a.messages ++ [⟨n, n, content⟩, ⟨n, n, content⟩] } ∧
    (a.messages = [] →
      ((p.sendMessage n n content).contacts[i]?).map Contact.messages =
        some [⟨n, n, content⟩, ⟨n, n, content⟩]) ∧
    ∀ k, k ≠ i → (p.sendMessage n n content).contacts[k]? = p.contacts[k]? := by
  have hsend := MobilePhone.sendMessage_resolved p n n content i i a a hi ha huniq hi ha huniq
  have hget := Contact.sendMessage_getElem? p.contacts i i content a a hi hi
  have hat : (p.sendMessage n n content).contacts[i]? =
      some { name := a.name, phoneNumber := a.phoneNumber,
             messages := a.messages ++ [⟨n, n, content⟩, ⟨n, n, content⟩] } := by
    rw [hsend]
    simp only [hget i, hi, ha, if_true, Option.map_some', List.append_assoc,
      List.singleton_append]
  refine ⟨hat, ?_, ?_⟩
  · intro hempty
    rw [hat, hempty]
    rfl
  · intro k hk
    rw [hsend]
    simp only [hget k, if_neg (Ne.symm hk), List.append_nil]
    cases p.contacts[k]? with
    | none => rfl
    | some c => rfl

/-- Witness for C11 (amended): the device whose only contact is Alice. -/
theorem MobilePhone.sendMessage_self_witness :
    ((MobilePhone.new.addContact (Contact.new "Alice" "111")).sendMessage
        "Alice" "Alice" "hi").contacts[0]? =
      some { name := (Contact.new "Alice" "111").name,
             phoneNumber := (Contact.new "Alice" "111").phoneNumber,
             messages := (Contact.new "Alice" "111").messages ++
               [⟨"Alice", "Alice", "hi"⟩, ⟨"Alice", "Alice", "hi"⟩] } ∧
    ((Contact.new "Alice" "111").messages = [] →
      (((MobilePhone.new.addContact (Contact.new "Alice" "111")).sendMessage
        "Alice" "Alice" "hi").contacts[0]?).map Contact.messages =
        some [⟨"Alice", "Alice", "hi"⟩, ⟨"Alice", "Alice", "hi"⟩]) ∧
    ∀ k, k ≠ 0 →
      ((MobilePhone.new.addContact (Contact.new "Alice" "111")).sendMessage
        "Alice" "Alice" "hi").contacts[k]? =
      (MobilePhone.new.addContact (Contact.new "Alice" "111")).contacts[k]? :=
  MobilePhone.sendMessage_self (MobilePhone.new.addContact (Contact.new "Alice" "111"))
    "Alice" "hi" 0 (Contact.new "Alice" "111") rfl rfl
    (nodup_names_unique _ (by decide) 0 (Contact.new "Alice" "111") rfl)

/-- C12: on a device whose contacts have pairwise distinct names, with `s` and
`r` two different names borne by the contacts at the indices `i` and `j`,
`sendMessage(s, r, content)` makes the history of the contact named `r` its old
history followed by the single message (sender `s`, recipient `r`, `content`),
likewise for the contact named `s`; every other contact, the sequence of
(name, phoneNumber) pairs, the calculation log and the installed calculator and
game are unchanged. After adding Alice and Bob to an empty device and sending
"hi" from Alice to Bob, viewing Bob's messages shows the one entry from Alice
with the content "hi". -/
theorem MobilePhone.sendMessage_frame (p : MobilePhone) (s r content : String) (i j : Nat)
    (a b : Contact) (hnodup : (p.contacts.map Contact.name).Nodup) (hsr : s ≠ r)
    (hi : p.contacts[i]? = some a) (ha : a.name = s)
    (hj : p.contacts[j]? = some b) (hb : b.name = r) :
    (p.sendMessage s r content).contacts[j]? =
      some { name := b.name, phoneNumber := b.phoneNumber,
             messages := b.messages ++ [⟨s, r, content⟩] } ∧
    (p.sendMessage s r content).contacts[i]? =
      some { name := a.name, phoneNumber := a.phoneNumber,
             messages := a.messages ++ [⟨s, r, content⟩] } ∧
    (∀ k, k ≠ i → k ≠ j → (p.sendMessage s r content).contacts[k]? = p.contacts[k]?) ∧
    (p.sendMessage s r content).contacts.map (fun c => (c.name, c.phoneNumber)) =
      p.contacts.map (fun c => (c.name, c.phoneNumber)) ∧
    (p.sendMessage s r content).calculatorResults = p.calculatorResults ∧
    (p.sendMessage s r content).calculator = p.calculator ∧
    (p.sendMessage s r content).game = p.game ∧
    viewMessages (aliceAndBob.sendMessage "Alice" "Bob" "hi").contacts "Bob" =
      some [("Alice", "hi")] := by
  have hij : i ≠ j := by
    intro h
    subst h
    rw [hi] at hj
    have : a = b := by simpa using hj
    subst this
    exact hsr (ha.symm.trans hb)
  have hui := nodup_names_unique p.contacts hnodup i a hi
  have huj := nodup_names_unique p.contacts hnodup j b hj
  rw [ha] at hui
  rw [hb] at huj
  have hsend := MobilePhone.sendMessage_resolved p s r content i j a b hi ha hui hj hb huj
  have hget := Contact.sendMessage_getElem? p.contacts i j content a b hi hj
  rw [hsend]
  refine ⟨?_, ?_, ?_, Contact.sendMessage_map_fields _ _ _ _, rfl, rfl, rfl, by decide⟩
  · simp only [hget j, hj, if_neg hij, if_true, Option.map_some', List.append_nil, ha, hb]
  · simp only [hget i, hi, if_neg (Ne.symm hij), if_true, Option.map_some', List.append_nil,
      ha, hb]
  · intro k hki hkj
    simp only [hget k, if_neg (Ne.symm hki), if_neg (Ne.symm hkj), List.append_nil]
    cases p.contacts[k]? with
    | none => rfl
    | some c => rfl


/-- Witness for C12: Alice (index 0) sends "hi" to Bob (index 1). -/
theorem MobilePhone.sendMessage_frame_witness :
    (aliceAndBob.sendMessage "Alice" "Bob" "hi").contacts[1]? =
      some { name := (Contact.new "Bob" "222").name,
             phoneNumber := (Contact.new "Bob" "222").phoneNumber,
             messages := (Contact.new "Bob" "222").messages ++ [⟨"Alice", "Bob", "hi"⟩] } ∧
    (aliceAndBob.sendMessage "Alice" "Bob" "hi").contacts[0]? =
      some { name := (Contact.new "Alice" "111").name,
             phoneNumber := (Contact.new "Alice" "111").phoneNumber,
             messages := (Contact.new "Alice" "111").messages ++ [⟨"Alice", "Bob", "hi"⟩] } ∧
    (∀ k, k ≠ 0 → k ≠ 1 →
      (aliceAndBob.sendMessage "Alice" "Bob" "hi").contacts[k]? = aliceAndBob.contacts[k]?) ∧
    (aliceAndBob.sendMessage "Alice" "Bob" "hi").contacts.map (fun c => (c.name, c.phoneNumber)) =
      aliceAndBob.contacts.map (fun c => (c.name, c.phoneNumber)) ∧
    (aliceAndBob.sendMessage "Alice" "Bob" "hi").calculatorResults =
      aliceAndBob.calculatorResults ∧
    (aliceAndBob.sendMessage "Alice" "Bob" "hi").calculator = aliceAndBob.calculator ∧
    (aliceAndBob.sendMessage "Alice" "Bob" "hi").game = aliceAndBob.game ∧
    viewMessages (aliceAndBob.sendMessage "Alice" "Bob" "hi").contacts "Bob" =
      some [("Alice", "hi")] :=
  MobilePhone.sendMessage_frame aliceAndBob "Alice" "Bob" "hi" 0 1 (Contact.new "Alice" "111")
    (Contact.new "Bob" "222") (by decide) (by decide) rfl rfl rfl rfl

/-! ## Saving and loading contacts -/

theorem skipSpace_append (lead : List Char) (hlead : ∀ ch ∈ lead, isspace ch = true)
    (t : List Char) : skipSpace (lead ++ t) = skipSpace t := by
  induction lead with
  | nil => rfl
  | cons c cs ih =>
    have hc : isspace c = true := hlead c (List.mem_cons_self _ _)
    simp only [List.cons_append, skipSpace, hc, if_true]
    exact ih (fun ch hch => hlead ch (List.mem_cons_of_mem _ hch))

theorem takeWord_append (w : List Char) (hw : ∀ ch ∈ w, isspace ch = false)
    (d : Char) (hd : isspace d = true) (t : List Char) :
    takeWord (w ++ d :: t) = (w, d :: t) := by
  induction w with
  | nil => simp [takeWord, hd]
  | cons c cs ih =>
    have hc : isspace c = false := hw c (List.mem_cons_self _ _)
    have ih2 := ih (fun ch hch => hw ch (List.mem_cons_of_mem _ hch))
    simp [takeWord, hc, ih2]

theorem extractString_word (lead w : List Char) (d : Char) (t : List Char) (str : String)
    (hlead : ∀ ch ∈ lead, isspace ch = true) (hne : w ≠ [])
    (hw : ∀ ch ∈ w, isspace ch = false) (hd : isspace d = true) :
    extractString { rest := lead ++ (w ++ d :: t), fail := false } str =
      ({ rest := d :: t, fail := false }, String.mk w) := by
  obtain ⟨c, cs, rfl⟩ := List.exists_cons_of_ne_nil hne
  have hc : isspace c = false := hw c (List.mem_cons_self _ _)
  have hskip : skipSpace (lead ++ (c :: cs ++ d :: t)) = c :: (cs ++ d :: t) := by
    rw [skipSpace_append lead hlead]
    simp [skipSpace, hc]
  have htake : takeWord (c :: (cs ++ d :: t)) = (c :: cs, d :: t) :=
    takeWord_append (c :: cs) hw d hd t
  simp only [extractString, hskip, htake]
  rfl

theorem IsWord.data_ne_nil {s : String} (h : IsWord s) : s.data ≠ [] := by
  intro hnil
  apply h.1
  cases s
  simp_all

theorem saveLoop_eq (cs : List Contact) (file : List Char) :
    cs.foldl (fun file contact => insertContact file contact ++ ['\n']) file =
      file ++ savedText cs := by
  induction cs generalizing file with
  | nil => simp [savedText]
  | cons c cs ih =>
    rw [List.foldl_cons, ih]
    simp [insertContact, savedText]

theorem loadLoop_savedText (cs : List Contact)
    (hcs : ∀ c ∈ cs, IsWord c.name ∧ IsWord c.phoneNumber) :
    ∀ (fuel : Nat) (lead : List Char) (contact : Contact) (acc : List Contact),
      cs.length < fuel → (∀ ch ∈ lead, isspace ch = true) → contact.messages = [] →
      loadLoop fuel { rest := lead ++ savedText cs, fail := false } contact acc =
        some (acc ++ cs.map fun c => Contact.new c.name c.phoneNumber) := by
  induction cs with
  | nil =>
    intro fuel lead contact acc hfuel hlead _
    obtain ⟨f, rfl⟩ : ∃ f, fuel = f + 1 := ⟨fuel - 1, by simp at hfuel; omega⟩
    have hskip : skipSpace lead = [] := by
      have := skipSpace_append lead hlead []
      simpa [skipSpace] using this
    simp [loadLoop, extractContact, extractString, savedText, hskip]
  | cons c cs ih =>
    intro fuel lead contact acc hfuel hlead hmsg
    obtain ⟨f, rfl⟩ : ∃ f, fuel = f + 1 := ⟨fuel - 1, by simp at hfuel; omega⟩
    obtain ⟨hn, hp⟩ := hcs c (List.mem_cons_self _ _)
    have h1 := extractString_word lead c.name.data ' '
      (c.phoneNumber.data ++ '\n' :: savedText cs) contact.name hlead hn.data_ne_nil hn.2
      (by decide)
    have h2 := extractString_word [' '] c.phoneNumber.data '\n' (savedText cs)
      contact.phoneNumber (by decide) hp.data_ne_nil hp.2 (by decide)
    have hext : extractContact { rest := lead ++ savedText (c :: cs), fail := false } contact =
        ({ rest := '\n' :: savedText cs, fail := false },
         Contact.new c.name c.phoneNumber) := by
      simp only [extractContact, savedText, h1]
      rw [show (' ' :: (c.phoneNumber.data ++ '\n' :: savedText cs)) =
        [' '] ++ (c.phoneNumber.data ++ '\n' :: savedText cs) from rfl, h2]
      simp [Contact.new, hmsg]
    have hrec := ih (fun d hd => hcs d (List.mem_cons_of_mem _ hd)) f ['\n']
      (Contact.new c.name c.phoneNumber) (acc ++ [Contact.new c.name c.phoneNumber])
      (by simp at hfuel; omega) (by decide) rfl
    simp only [loadLoop, hext]
    simp only [List.singleton_append] at hrec
    simp [hrec]

theorem savedText_length (cs : List Contact) : cs.length ≤ (savedText cs).length := by
  induction cs with
  | nil => simp
  | cons c cs ih => simp [savedText]; omega

theorem skipSpace_length (l : List Char) : (skipSpace l).length ≤ l.length := by
  induction l with
  | nil => simp [skipSpace]
  | cons c cs ih =>
    simp only [skipSpace]
    split
    · simp; omega
    · simp

theorem takeWord_length (l : List Char) : (takeWord l).2.length ≤ l.length := by
  induction l with
  | nil => simp [takeWord]
  | cons c cs ih =>
    simp only [takeWord]
    split
    · simp
    · simp; omega

theorem takeWord_length_lt (c : Char) (cs : List Char) (hc : isspace c = false) :
    (takeWord (c :: cs)).2.length < (c :: cs).length := by
  have := takeWord_length cs
  simp [takeWord, hc]
  omega

theorem skipSpace_head (l : List Char) (c : Char) (cs : List Char)
    (h : skipSpace l = c :: cs) : isspace c = false := by
  induction l with
  | nil => simp [skipSpace] at h
  | cons d ds ih =>
    simp only [skipSpace] at h
    split at h
    · exact ih h
    · rename_i hd
      simp only [List.cons.injEq] at h
      rw [← h.1]
      simpa using hd

theorem extractString_fail (is : IStream) (str : String) (h : is.fail = true) :
    (extractString is str).1.fail = true := by
  simp [extractString, h]

theorem extractString_length_le (is : IStream) (str : String) :
    (extractString is str).1.rest.length ≤ is.rest.length := by
  unfold extractString
  split
  · exact Nat.le_refl _
  · split
    · simp
    · rename_i c cs hskip
      have h1 := skipSpace_length is.rest
      have h2 := takeWord_length (c :: cs)
      rw [hskip] at h1
      simp only at h1 h2 ⊢
      omega

theorem extractString_length_lt (is : IStream) (str : String)
    (h : (extractString is str).1.fail = false) :
    (extractString is str).1.rest.length < is.rest.length := by
  unfold extractString at h ⊢
  split
  · rename_i hf
    simp [hf] at h
  · split
    · rename_i hskip
      simp [hskip] at h
      split at h <;> simp_all
    · rename_i c cs hskip
      have h1 := skipSpace_length is.rest
      have h2 := takeWord_length_lt c cs (skipSpace_head _ _ _ hskip)
      rw [hskip] at h1
      simp only at h1 h2 ⊢
      omega

theorem extractContact_length_lt (is : IStream) (contact : Contact)
    (h : (extractContact is contact).1.fail = false) :
    (extractContact is contact).1.rest.length < is.rest.length := by
  simp only [extractContact] at h ⊢
  have h2 := extractString_length_lt _ _ h
  have h1 := extractString_length_le is contact.name
  omega

theorem loadLoop_total : ∀ (fuel : Nat) (is : IStream) (contact : Contact)
    (acc : List Contact), is.rest.length < fuel →
    ∃ r, loadLoop fuel is contact acc = some r
  | 0, _, _, _, h => absurd h (Nat.not_lt_zero _)
  | fuel + 1, is, contact, acc, h => by
    simp only [loadLoop]
    by_cases hf : (extractContact is contact).1.fail = true
    · exact ⟨acc, by simp [hf]⟩
    · have hf2 : (extractContact is contact).1.fail = false := by simpa using hf
      have hlt := extractContact_length_lt is contact hf2
      simp only [hf2]
      exact loadLoop_total fuel _ _ _ (by omega)

/-- Totality of `MobilePhone::loadContactsFromFile`: on every device and every
file (present or not) the loop stops and a device is returned. -/
theorem MobilePhone.loadContactsFromFile_total (p : MobilePhone) (file : Option (List Char)) :
    ∃ q, p.loadContactsFromFile file = some q := by
  cases file with
  | none => exact ⟨p, rfl⟩
  | some text =>
    obtain ⟨r, hr⟩ := loadLoop_total (text.length + 1) { rest := text, fail := false }
      (Contact.new "" "") p.contacts (Nat.lt_succ_self _)
    exact ⟨{ p with contacts := r }, by simp [MobilePhone.loadContactsFromFile, hr]⟩

/-- C3 (as stated, refuted): the single contact with the empty name and the
number 111 has whitespace-free fields, yet saving it and loading the text into
a device without contacts yields no contact at all. -/
theorem MobilePhone.roundtrip_empty_name_lost :
    (∀ c ∈ (MobilePhone.new.addContact (Contact.new "" "111")).contacts,
      NoSpace c.name ∧ NoSpace c.phoneNumber) ∧
    (MobilePhone.new.loadContactsFromFile
      ((MobilePhone.new.addContact (Contact.new "" "111")).saveContactsToFile true)).map
        (fun q => q.contacts.map fun c => (c.name, c.phoneNumber)) = some [] ∧
    (MobilePhone.new.addContact (Contact.new "" "111")).contacts.map
        (fun c => (c.name, c.phoneNumber)) = [("", "111")] := by
  refine ⟨?_, by decide, by decide⟩
  intro c hc
  have hc2 : c = Contact.new "" "111" := by
    simpa [MobilePhone.addContact, MobilePhone.new] using hc
  subst hc2
  constructor
  · intro ch hch
    simp [Contact.new] at hch
  · intro ch hch
    have : ch = '1' := by simpa [Contact.new] using hch
    subst this
    decide

/-- C3 (amended): for every device whose contacts all have a non-empty,
whitespace-free name and phone number, the text written by `saveContactsToFile`
is read by `loadContactsFromFile` into a device without contacts as a contact
list with the same (name, phoneNumber) pairs in the same order and of the same
length; every loaded contact has an empty history. -/
theorem MobilePhone.save_load_roundtrip (p : MobilePhone)
    (h : ∀ c ∈ p.contacts, IsWord c.name ∧ IsWord c.phoneNumber) :
    ∃ q, MobilePhone.new.loadContactsFromFile (p.saveContactsToFile true) = some q ∧
      q.contacts = p.contacts.map (fun c => Contact.new c.name c.phoneNumber) ∧
      q.contacts.map (fun c => (c.name, c.phoneNumber)) =
        p.contacts.map (fun c => (c.name, c.phoneNumber)) ∧
      q.contacts.length = p.contacts.length := by
  have hload := loadLoop_savedText p.contacts h ((savedText p.contacts).length + 1) []
    (Contact.new "" "") [] (by have := savedText_length p.contacts; omega)
    (by simp) rfl
  simp only [List.nil_append] at hload
  refine ⟨{ MobilePhone.new with
    contacts := p.contacts.map (fun c => Contact.new c.name c.phoneNumber) }, ?_, rfl, ?_, ?_⟩
  · simp only [MobilePhone.saveContactsToFile, if_true, MobilePhone.loadContactsFromFile,
      saveLoop_eq, List.nil_append]
    rw [show (MobilePhone.new).contacts = [] from rfl, hload]
    rfl
  · simp [Contact.new, List.map_map, Function.comp_def]
  · simp

/-- Witness for C3 (amended): the device with the contacts Bob, Alice, Bob. -/
theorem MobilePhone.save_load_roundtrip_witness :
    ∃ q, MobilePhone.new.loadContactsFromFile (duplicateBobs.saveContactsToFile true) = some q ∧
      q.contacts = duplicateBobs.contacts.map (fun c => Contact.new c.name c.phoneNumber) ∧
      q.contacts.map (fun c => (c.name, c.phoneNumber)) =
        duplicateBobs.contacts.map (fun c => (c.name, c.phoneNumber)) ∧
      q.contacts.length = duplicateBobs.contacts.length :=
  MobilePhone.save_load_roundtrip duplicateBobs (by
    intro c hc
    have hc2 : c = Contact.new "Bob" "111" ∨ c = Contact.new "Alice" "222" ∨
        c = Contact.new "Bob" "333" := by
      simpa [duplicateBobs, MobilePhone.addContact, MobilePhone.new] using hc
    rcases hc2 with rfl | rfl | rfl <;> exact ⟨⟨by decide, by decide⟩, ⟨by decide, by decide⟩⟩)

/-! ## Tic-tac-toe -/

theorem hasLineOf_iff (b : Board) (p : Char) :
    HasLineOf b p ↔
      (b 0 0 = p ∧ b 0 1 = p ∧ b 0 2 = p) ∨ (b 1 0 = p ∧ b 1 1 = p ∧ b 1 2 = p) ∨
      (b 2 0 = p ∧ b 2 1 = p ∧ b 2 2 = p) ∨ (b 0 0 = p ∧ b 1 0 = p ∧ b 2 0 = p) ∨
      (b 0 1 = p ∧ b 1 1 = p ∧ b 2 1 = p) ∨ (b 0 2 = p ∧ b 1 2 = p ∧ b 2 2 = p) ∨
      (b 0 0 = p ∧ b 1 1 = p ∧ b 2 2 = p) ∨ (b 0 2 = p ∧ b 1 1 = p ∧ b 2 0 = p) := by
  simp only [HasLineOf, boardLines, List.mem_cons, List.mem_singleton, exists_eq_or_imp,
    exists_eq_left, List.not_mem_nil, false_and, exists_false, or_false,
    forall_eq_or_imp, forall_eq, IsEmpty.forall_iff, implies_true, and_true]

theorem TicTacToe.checkWin_fst (g : TicTacToe) :
    g.checkWin.1 = true ↔ HasLineOf g.board g.currentPlayer := by
  rw [hasLineOf_iff]
  unfold TicTacToe.checkWin
  simp only [List.any_cons, List.any_nil, Bool.or_false]
  by_cases h1 : (g.board 0 0 = g.currentPlayer ∧ g.board 0 1 = g.currentPlayer ∧ g.board 0 2 = g.currentPlayer)
  · simp [h1]
  by_cases h2 : (g.board 1 0 = g.currentPlayer ∧ g.board 1 1 = g.currentPlayer ∧ g.board 1 2 = g.currentPlayer)
  · simp [h2]
  by_cases h3 : (g.board 2 0 = g.currentPlayer ∧ g.board 2 1 = g.currentPlayer ∧ g.board 2 2 = g.currentPlayer)
  · simp [h3]
  by_cases h4 : (g.board 0 0 = g.currentPlayer ∧ g.board 1 0 = g.currentPlayer ∧ g.board 2 0 = g.currentPlayer)
  · simp [h4]
  by_cases h5 : (g.board 0 1 = g.currentPlayer ∧ g.board 1 1 = g.currentPlayer ∧ g.board 2 1 = g.currentPlayer)
  · simp [h5]
  by_cases h6 : (g.board 0 2 = g.currentPlayer ∧ g.board 1 2 = g.currentPlayer ∧ g.board 2 2 = g.currentPlayer)
  · simp [h6]
  by_cases h7 : (g.board 0 0 = g.currentPlayer ∧ g.board 1 1 = g.currentPlayer ∧ g.board 2 2 = g.currentPlayer)
  · simp [h7]
  by_cases h8 : (g.board 0 2 = g.currentPlayer ∧ g.board 1 1 = g.currentPlayer ∧ g.board 2 0 = g.currentPlayer)
  · simp [h8]
  simp only [h1, h2, h3, h4, h5, h6, h7, h8, or_self, iff_false]
  simp only [Bool.or_eq_true, Bool.and_eq_true, beq_iff_eq, and_assoc]
  rw [if_neg (by rintro ((h | h) | (h | h) | (h | h)) <;> contradiction), if_neg h7, if_neg h8]
  simp

theorem TicTacToe.checkWin_snd (g : TicTacToe) :
    g.checkWin.2 = if g.checkWin.1 = true then { g with gameOver := true } else g := by
  unfold TicTacToe.checkWin
  simp only
  split
  · rfl
  · split
    · rfl
    · split <;> rfl

theorem TicTacToe.isMoveValid_eq (g : TicTacToe) (row col : Int) :
    g.isMoveValid row col =
      some (decide (0 ≤ row ∧ row < 3 ∧ 0 ≤ col ∧ col < 3 ∧
        cellAt g.board row col = some ' ')) := by
  unfold TicTacToe.isMoveValid
  by_cases h : row ≥ 0 ∧ row < 3 ∧ col ≥ 0 ∧ col < 3
  · have h2 : 0 ≤ row ∧ row < 3 ∧ 0 ≤ col ∧ col < 3 := h
    rw [if_pos h]
    simp only [cellAt, dif_pos h2, Option.map_some', Option.some.injEq]
    obtain ⟨a, b, c, d⟩ := h2
    simp [a, b, c, d]
  · rw [if_neg h]
    have h2 : ¬ (0 ≤ row ∧ row < 3 ∧ 0 ≤ col ∧ col < 3) := h
    simp only [Option.some.injEq]
    symm
    simp only [decide_eq_false_iff_not]
    tauto

theorem TicTacToe.isMoveValid_true (g : TicTacToe) (row col : Int)
    (h : g.isMoveValid row col = some true) :
    ∃ i j : Fin 3, (i.val : Int) = row ∧ (j.val : Int) = col ∧ g.board i j = ' ' := by
  rw [TicTacToe.isMoveValid_eq] at h
  simp only [Option.some.injEq, decide_eq_true_eq] at h
  obtain ⟨a, b, c, d, e⟩ := h
  have hr : 0 ≤ row ∧ row < 3 ∧ 0 ≤ col ∧ col < 3 := ⟨a, b, c, d⟩
  simp only [cellAt, dif_pos hr, Option.some.injEq] at e
  exact ⟨⟨row.toNat, by omega⟩, ⟨col.toNat, by omega⟩, by simp; omega, by simp; omega, e⟩

theorem hasLine_setCell (b : Board) (row col : Int) (p : Char)
    (h : HasLine (setCell b row col p)) :
    HasLineOf (setCell b row col p) p ∨ HasLine b := by
  obtain ⟨l, hl, ch, hch, hall⟩ := h
  by_cases hp : ch = p
  · left
    exact ⟨l, hl, fun cell hc => by rw [hall cell hc, hp]⟩
  · right
    refine ⟨l, hl, ch, hch, fun cell hc => ?_⟩
    have := hall cell hc
    unfold setCell at this
    split at this
    · exact absurd this.symm hp
    · exact this

theorem hasLine_of_hasLineOf (b : Board) (p : Char) (hp : p ≠ ' ') (h : HasLineOf b p) :
    HasLine b := by
  obtain ⟨l, hl, hall⟩ := h
  exact ⟨l, hl, p, hp, hall⟩

theorem TicTacToe.inv_new : TicTacToe.new.Inv := by
  refine ⟨Or.inl rfl, fun _ h => ?_⟩
  obtain ⟨l, hl, ch, hch, hall⟩ := h
  have hl2 : ∃ cell, cell ∈ l := by
    simp only [boardLines, List.mem_cons, List.mem_singleton, List.not_mem_nil, or_false] at hl
    rcases hl with rfl | rfl | rfl | rfl | rfl | rfl | rfl | rfl <;>
      exact ⟨_, List.mem_cons_self _ _⟩
  obtain ⟨cell, hc⟩ := hl2
  exact hch (hall cell hc).symm

theorem TicTacToe.player_ne_blank (g : TicTacToe) (h : g.Inv) : g.currentPlayer ≠ ' ' := by
  rcases h.player with hp | hp <;> rw [hp] <;> decide

theorem TicTacToe.inv_step (g : TicTacToe) (row col : Int) (r : TttStep)
    (hinv : g.Inv) (hover : g.gameOver = false) (h : g.loopBody row col = some r) :
    r.game.Inv := by
  unfold TicTacToe.loopBody TicTacToe.placeMark at h
  split at h
  · exact absurd h (by simp)
  · simp only at h
    rw [TicTacToe.checkWin_snd] at h
    split at h
    · rename_i hw
      simp only [hw, if_true, Option.some.injEq] at h
      subst h
      exact ⟨hinv.player, fun hf => by simp at hf⟩
    · rename_i hw
      simp only [hw, Bool.false_eq_true, if_false] at h
      have hno : ¬ HasLine (setCell g.board row col g.currentPlayer) := by
        intro hl
        rcases hasLine_setCell _ _ _ _ hl with h1 | h1
        · exact hw ((TicTacToe.checkWin_fst _).2 h1)
        · exact hinv.noLine hover h1
      split at h
      · simp only [Option.some.injEq] at h
        subst h
        exact ⟨hinv.player, fun _ => hno⟩
      · simp only [Option.some.injEq] at h
        subst h
        refine ⟨?_, fun _ => hno⟩
        simp only [TicTacToe.switchPlayer]
        split
        · right; rfl
        · left; rfl
  · simp only [Option.some.injEq] at h
    subst h
    exact hinv

theorem TicTacToe.Reachable.inv {g : TicTacToe} (h : g.Reachable) : g.Inv := by
  induction h with
  | fresh => exact TicTacToe.inv_new
  | step g row col r _ hover hbody ih => exact TicTacToe.inv_step g row col r ih hover hbody


theorem TicTacToe.play_gameOver (g : TicTacToe) (h : g.gameOver = true)
    (inputs : List (Int × Int)) :
    g.play inputs = { game := g, input := inputs, out := [], status := .returned } := by
  cases inputs with
  | nil => simp [TicTacToe.play, TicTacToe.isGameOver, h]
  | cons m rest =>
    obtain ⟨row, col⟩ := m
    simp [TicTacToe.play, TicTacToe.isGameOver, h]

theorem TicTacToe.Reachable.play {g : TicTacToe} (h : g.Reachable)
    (inputs : List (Int × Int)) : (g.play inputs).game.Reachable := by
  induction inputs generalizing g with
  | nil =>
    unfold TicTacToe.play
    split <;> exact h
  | cons m rest ih =>
    obtain ⟨row, col⟩ := m
    unfold TicTacToe.play
    split
    · exact h
    · rename_i hover
      split
      · exact h
      · rename_i r hr
        have hr2 : r.game.Reachable :=
          TicTacToe.Reachable.step g row col r h (by simpa using hover) hr
        split
        · exact hr2
        · exact ih hr2

theorem TicTacToe.loopBody_win (g : TicTacToe) (row col : Int)
    (hvalid : g.isMoveValid row col = some true)
    (hwin : (g.placeMark row col).checkWin.1 = true) :
    g.loopBody row col = some
      { game := { board := setCell g.board row col g.currentPlayer,
                  currentPlayer := g.currentPlayer, gameOver := true },
        out := [.board (setCell g.board row col g.currentPlayer), .wins g.currentPlayer],
        broke := false } := by
  simp only [TicTacToe.loopBody, hvalid, hwin, if_true, TicTacToe.checkWin_snd]
  rfl

theorem TicTacToe.isBoardFull_iff (g : TicTacToe) :
    g.isBoardFull = true ↔ ∀ i j, g.board i j ≠ ' ' := by
  constructor
  · intro h i j
    simp only [TicTacToe.isBoardFull, List.all_cons, List.all_nil, Bool.and_true,
      Bool.and_eq_true, bne_iff_ne, ne_eq] at h
    fin_cases i <;> fin_cases j <;> simp only [Fin.zero_eta, Fin.mk_one, Fin.reduceFinMk] <;>
      tauto
  · intro h
    simp [TicTacToe.isBoardFull, h]

theorem TicTacToe.isMoveValid_full (g : TicTacToe) (hfull : g.isBoardFull = true)
    (row col : Int) : g.isMoveValid row col = some false := by
  rw [TicTacToe.isMoveValid_eq]
  simp only [Option.some.injEq, decide_eq_false_iff_not]
  rintro ⟨a, b, c, d, e⟩
  have hr : 0 ≤ row ∧ row < 3 ∧ 0 ≤ col ∧ col < 3 := ⟨a, b, c, d⟩
  simp only [cellAt, dif_pos hr, Option.some.injEq] at e
  exact (TicTacToe.isBoardFull_iff g).1 hfull _ _ e

theorem TicTacToe.play_full (g : TicTacToe) (hfull : g.isBoardFull = true)
    (hover : g.gameOver = false) (inputs : List (Int × Int)) :
    (g.play inputs).status = .awaitingInput ∧ (g.play inputs).game = g ∧
      (g.play inputs).input = [] := by
  induction inputs with
  | nil => simp [TicTacToe.play, TicTacToe.isGameOver, hover]
  | cons m rest ih =>
    obtain ⟨row, col⟩ := m
    simp only [TicTacToe.play, TicTacToe.isGameOver, hover, TicTacToe.loopBody,
      TicTacToe.isMoveValid_full g hfull row col]
    simpa using ih

/-- C5: in every state reachable from a fresh game in which the game is not
over, after an accepted move (the mark of the current player placed on a valid
cell) `checkWin` returns true if and only if some row, column or diagonal holds
three equal non-empty cells, whichever mark they carry; it sets `gameOver`
exactly when it returns true; and a move that completes a line, the ninth
included, is reported by the loop body as a win of the current player (no draw
is reported) and ends the game. -/
theorem TicTacToe.checkWin_iff_line (g : TicTacToe) (row col : Int)
    (hreach : g.Reachable) (hover : g.isGameOver = false)
    (hvalid : g.isMoveValid row col = some true) :
    ((g.placeMark row col).checkWin.1 = true ↔ HasLine (g.placeMark row col).board) ∧
    (g.placeMark row col).checkWin.2.gameOver = (g.placeMark row col).checkWin.1 ∧
    (HasLine (g.placeMark row col).board →
      g.loopBody row col = some
        { game := { board := setCell g.board row col g.currentPlayer,
                    currentPlayer := g.currentPlayer, gameOver := true },
          out := [.board (setCell g.board row col g.currentPlayer), .wins g.currentPlayer],
          broke := false }) := by
  have hinv := hreach.inv
  have hov : g.gameOver = false := hover
  have hiff : (g.placeMark row col).checkWin.1 = true ↔ HasLine (g.placeMark row col).board := by
    constructor
    · intro h
      exact hasLine_of_hasLineOf _ _ (g.player_ne_blank hinv)
        ((TicTacToe.checkWin_fst (g.placeMark row col)).1 h)
    · intro h
      rcases hasLine_setCell _ _ _ _ h with h1 | h1
      · exact (TicTacToe.checkWin_fst (g.placeMark row col)).2 h1
      · exact absurd h1 (hinv.noLine hov)
  refine ⟨hiff, ?_, fun h => TicTacToe.loopBody_win g row col hvalid (hiff.2 h)⟩
  rw [TicTacToe.checkWin_snd]
  split
  · rename_i hw
    rw [hw]
  · rename_i hw
    simp only [Bool.not_eq_true] at hw
    rw [hw]
    exact hov

/-- Witness for C5: after the eight moves of `eightMoves` X plays (2, 2), which
fills the board and completes the diagonal from (0, 0). -/
theorem TicTacToe.checkWin_iff_line_witness :
    (((TicTacToe.new.play eightMoves).game.placeMark 2 2).checkWin.1 = true ↔
      HasLine ((TicTacToe.new.play eightMoves).game.placeMark 2 2).board) ∧
    ((TicTacToe.new.play eightMoves).game.placeMark 2 2).checkWin.2.gameOver =
      ((TicTacToe.new.play eightMoves).game.placeMark 2 2).checkWin.1 ∧
    (HasLine ((TicTacToe.new.play eightMoves).game.placeMark 2 2).board →
      (TicTacToe.new.play eightMoves).game.loopBody 2 2 = some
        { game := { board := setCell (TicTacToe.new.play eightMoves).game.board 2 2
                      (TicTacToe.new.play eightMoves).game.currentPlayer,
                    currentPlayer := (TicTacToe.new.play eightMoves).game.currentPlayer,
                    gameOver := true },
          out := [.board (setCell (TicTacToe.new.play eightMoves).game.board 2 2
                    (TicTacToe.new.play eightMoves).game.currentPlayer),
                  .wins (TicTacToe.new.play eightMoves).game.currentPlayer],
          broke := false }) :=
  TicTacToe.checkWin_iff_line (TicTacToe.new.play eightMoves).game 2 2
    (TicTacToe.Reachable.play TicTacToe.Reachable.fresh eightMoves) (by decide) (by decide)

/-- C6 (evaluation of the code): the nine moves of `drawMoves` fill the board
without a line; `play` reports the draw and returns through `break`, but
`gameOver` is still false afterwards, and a later call of `play` on that game
displays the board, asks player X for a move and never returns, whatever the
input: every move is rejected and the loop goes on. -/
theorem TicTacToe.draw_not_terminal :
    (TicTacToe.new.play drawMoves).status = .returned ∧
    (TicTacToe.new.play drawMoves).out.getLast? = some .draw ∧
    (TicTacToe.new.play drawMoves).game.isBoardFull = true ∧
    (TicTacToe.new.play drawMoves).game.checkWin.1 = false ∧
    (TicTacToe.new.play drawMoves).game.isGameOver = false ∧
    ((TicTacToe.new.play drawMoves).game.play []).out =
      [.board (TicTacToe.new.play drawMoves).game.board, .prompt 'X'] ∧
    ∀ inputs : List (Int × Int),
      ((TicTacToe.new.play drawMoves).game.play inputs).status = .awaitingInput ∧
      ((TicTacToe.new.play drawMoves).game.play inputs).input = [] := by
  refine ⟨by decide, rfl, by decide, by decide, by decide, rfl, fun inputs => ?_⟩
  have h := TicTacToe.play_full (TicTacToe.new.play drawMoves).game (by decide) (by decide) inputs
  exact ⟨h.1, h.2.2⟩

/-- C7: in every state reachable from a fresh game in which the game is not
over, when an accepted move completes a line, `play` sets `gameOver`, reports
the win and returns without reading any of the remaining input; and every later
call of `play`, on any input, returns at once with the board, the current
player and `gameOver` unchanged, reading and writing nothing. -/
theorem TicTacToe.win_terminal (g : TicTacToe) (row col : Int) (rest : List (Int × Int))
    (hreach : g.Reachable) (hover : g.isGameOver = false)
    (hvalid : g.isMoveValid row col = some true)
    (hline : HasLine (g.placeMark row col).board) :
    (g.play ((row, col) :: rest)).status = .returned ∧
    (g.play ((row, col) :: rest)).input = rest ∧
    (g.play ((row, col) :: rest)).game =
      { board := setCell g.board row col g.currentPlayer,
        currentPlayer := g.currentPlayer, gameOver := true } ∧
    (g.play ((row, col) :: rest)).out =
      [.board g.board, .prompt g.currentPlayer,
       .board (setCell g.board row col g.currentPlayer), .wins g.currentPlayer] ∧
    ∀ later : List (Int × Int),
      (g.play ((row, col) :: rest)).game.play later =
        { game := (g.play ((row, col) :: rest)).game, input := later, out := [],
          status := .returned } := by
  have hinv := hreach.inv
  have hov : g.gameOver = false := hover
  have hwin : (g.placeMark row col).checkWin.1 = true := by
    rcases hasLine_setCell _ _ _ _ hline with h1 | h1
    · exact (TicTacToe.checkWin_fst (g.placeMark row col)).2 h1
    · exact absurd h1 (hinv.noLine hov)
  have hbody := TicTacToe.loopBody_win g row col hvalid hwin
  have hplay : g.play ((row, col) :: rest) =
      { game := { board := setCell g.board row col g.currentPlayer,
                  currentPlayer := g.currentPlayer, gameOver := true },
        input := rest,
        out := [.board g.board, .prompt g.currentPlayer,
          .board (setCell g.board row col g.currentPlayer), .wins g.currentPlayer],
        status := .returned } := by
    simp only [TicTacToe.play, TicTacToe.isGameOver, hov, hbody]
    simp [TicTacToe.play_gameOver]
  rw [hplay]
  exact ⟨rfl, rfl, rfl, rfl, fun later => TicTacToe.play_gameOver _ rfl later⟩

/-- Witness for C7: after X (0,0), O (1,0), X (0,1), O (1,1) the move X (0,2)
completes the top row while two more moves are waiting in the input. -/
theorem TicTacToe.win_terminal_witness :
    ((TicTacToe.new.play fourMoves).game.play ((0, 2) :: [(2, 2), (2, 1)])).status = .returned ∧
    ((TicTacToe.new.play fourMoves).game.play ((0, 2) :: [(2, 2), (2, 1)])).input =
      [(2, 2), (2, 1)] ∧
    ((TicTacToe.new.play fourMoves).game.play ((0, 2) :: [(2, 2), (2, 1)])).game =
      { board := setCell (TicTacToe.new.play fourMoves).game.board 0 2
          (TicTacToe.new.play fourMoves).game.currentPlayer,
        currentPlayer := (TicTacToe.new.play fourMoves).game.currentPlayer,
        gameOver := true } ∧
    ((TicTacToe.new.play fourMoves).game.play ((0, 2) :: [(2, 2), (2, 1)])).out =
      [.board (TicTacToe.new.play fourMoves).game.board,
       .prompt (TicTacToe.new.play fourMoves).game.currentPlayer,
       .board (setCell (TicTacToe.new.play fourMoves).game.board 0 2
          (TicTacToe.new.play fourMoves).game.currentPlayer),
       .wins (TicTacToe.new.play fourMoves).game.currentPlayer] ∧
    ∀ later : List (Int × Int),
      ((TicTacToe.new.play fourMoves).game.play ((0, 2) :: [(2, 2), (2, 1)])).game.play later =
        { game := ((TicTacToe.new.play fourMoves).game.play ((0, 2) :: [(2, 2), (2, 1)])).game,
          input := later, out := [], status := .returned } :=
  TicTacToe.win_terminal (TicTacToe.new.play fourMoves).game 0 2 [(2, 2), (2, 1)]
    (TicTacToe.Reachable.play TicTacToe.Reachable.fresh fourMoves) (by decide) (by decide)
    (hasLine_of_hasLineOf _ _ (by decide)
      ((TicTacToe.checkWin_fst ((TicTacToe.new.play fourMoves).game.placeMark 0 2)).1
        (by decide)))

/-- C8: for every game state and every pair of integers, `isMoveValid` never
subscripts the board out of range, and it returns true if and only if both
coordinates lie in [0, 3) and the addressed cell is blank; an invalid move makes the
loop body report it and leave the game as it was, so `play` continues
from the same board, current player and `gameOver` with the rest of the input. -/
theorem TicTacToe.isMoveValid_spec (g : TicTacToe) (row col : Int) :
    (g.isMoveValid row col = some true ∨ g.isMoveValid row col = some false) ∧
    (g.isMoveValid row col = some true ↔
      0 ≤ row ∧ row < 3 ∧ 0 ≤ col ∧ col < 3 ∧ cellAt g.board row col = some ' ') ∧
    (g.isMoveValid row col = some true ↔
      ∃ i j : Fin 3, (i.val : Int) = row ∧ (j.val : Int) = col ∧ g.board i j = ' ') ∧
    (g.isMoveValid row col = some false →
      g.loopBody row col = some { game := g, out := [.invalidMove], broke := false } ∧
      ∀ rest : List (Int × Int), g.isGameOver = false →
        (g.play ((row, col) :: rest)).game = (g.play rest).game ∧
        (g.play ((row, col) :: rest)).input = (g.play rest).input ∧
        (g.play ((row, col) :: rest)).status = (g.play rest).status ∧
        (g.play ((row, col) :: rest)).out =
          [.board g.board, .prompt g.currentPlayer, .invalidMove] ++ (g.play rest).out) := by
  have heq := TicTacToe.isMoveValid_eq g row col
  refine ⟨?_, ?_, ?_, ?_⟩
  · rw [heq]
    cases decide (0 ≤ row ∧ row < 3 ∧ 0 ≤ col ∧ col < 3 ∧ cellAt g.board row col = some ' ')
    · exact Or.inr rfl
    · exact Or.inl rfl
  · rw [heq]
    simp only [Option.some.injEq, decide_eq_true_eq]
  · constructor
    · exact TicTacToe.isMoveValid_true g row col
    · rintro ⟨i, j, hi, hj, hb⟩
      rw [heq]
      have hr : 0 ≤ row ∧ row < 3 ∧ 0 ≤ col ∧ col < 3 := by omega
      simp only [Option.some.injEq, decide_eq_true_eq, cellAt, dif_pos hr]
      refine ⟨hr.1, hr.2.1, hr.2.2.1, hr.2.2.2, ?_⟩
      have h1 : (⟨row.toNat, by omega⟩ : Fin 3) = i := Fin.ext (by simp; omega)
      have h2 : (⟨col.toNat, by omega⟩ : Fin 3) = j := Fin.ext (by simp; omega)
      rw [h1, h2, hb]
  · intro hfalse
    have hbody : g.loopBody row col =
        some { game := g, out := [.invalidMove], broke := false } := by
      simp only [TicTacToe.loopBody, hfalse]
    refine ⟨hbody, fun rest hover => ?_⟩
    simp only [TicTacToe.play, hover, hbody]
    simp

/-- Witness for C8: on the fresh board the move (3, 0) is out of range. -/
theorem TicTacToe.isMoveValid_spec_witness :
    (TicTacToe.new.isMoveValid 3 0 = some true ∨ TicTacToe.new.isMoveValid 3 0 = some false) ∧
    (TicTacToe.new.isMoveValid 3 0 = some true ↔
      (0 : Int) ≤ 3 ∧ (3 : Int) < 3 ∧ (0 : Int) ≤ 0 ∧ (0 : Int) < 3 ∧
        cellAt TicTacToe.new.board 3 0 = some ' ') ∧
    (TicTacToe.new.isMoveValid 3 0 = some true ↔
      ∃ i j : Fin 3, (i.val : Int) = 3 ∧ (j.val : Int) = 0 ∧ TicTacToe.new.board i j = ' ') ∧
    (TicTacToe.new.isMoveValid 3 0 = some false →
      TicTacToe.new.loopBody 3 0 =
        some { game := TicTacToe.new, out := [.invalidMove], broke := false } ∧
      ∀ rest : List (Int × Int), TicTacToe.new.isGameOver = false →
        (TicTacToe.new.play ((3, 0) :: rest)).game = (TicTacToe.new.play rest).game ∧
        (TicTacToe.new.play ((3, 0) :: rest)).input = (TicTacToe.new.play rest).input ∧
        (TicTacToe.new.play ((3, 0) :: rest)).status = (TicTacToe.new.play rest).status ∧
        (TicTacToe.new.play ((3, 0) :: rest)).out =
          [.board TicTacToe.new.board, .prompt TicTacToe.new.currentPlayer, .invalidMove] ++
            (TicTacToe.new.play rest).out) :=
  TicTacToe.isMoveValid_spec TicTacToe.new 3 0

/-! ## Rock, paper, scissors -/

/-- C9: for user choice `u` and computer choice `c` in 1 (Rock), 2 (Paper),
3 (Scissors) the result is a draw when `u = c`, a win of the user for (1,3),
(2,1), (3,2), and a win of the computer for (1,2), (2,3), (3,1); and a round in
which the random source yields the choice `c` writes the computer's choice
followed by exactly one result, the one given by the rule. -/
theorem rpsOutcome_rule (u c : Int) (hu : u = 1 ∨ u = 2 ∨ u = 3)
    (hc : c = 1 ∨ c = 2 ∨ c = 3) :
    (u = c → rpsOutcome u c = .draw) ∧
    ((u = 1 ∧ c = 3) ∨ (u = 2 ∧ c = 1) ∨ (u = 3 ∧ c = 2) → rpsOutcome u c = .userWins) ∧
    ((u = 1 ∧ c = 2) ∨ (u = 2 ∧ c = 3) ∨ (u = 3 ∧ c = 1) →
      rpsOutcome u c = .computerWins) ∧
    ∀ random : RandomSource, ((random.rand.1 % 3 + 1 : Nat) : Int) = c →
      (RockPaperScissorsGame.round u random).1 =
        [.computerChose c, .result (rpsOutcome u c)] := by
  refine ⟨?_, ?_, ?_, ?_⟩
  · intro h
    simp [rpsOutcome, h]
  · intro h
    rcases h with ⟨rfl, rfl⟩ | ⟨rfl, rfl⟩ | ⟨rfl, rfl⟩ <;> decide
  · intro h
    rcases h with ⟨rfl, rfl⟩ | ⟨rfl, rfl⟩ | ⟨rfl, rfl⟩ <;> decide
  · intro random hr
    have hrange : ¬ (u < 1 ∨ u > 3) := by omega
    simp only [RockPaperScissorsGame.round, if_neg hrange, hr]

/-- Witness for C9: Paper against Rock, the random source returning 3 first. -/
theorem rpsOutcome_rule_witness :
    ((2 : Int) = 1 → rpsOutcome 2 1 = .draw) ∧
    (((2 : Int) = 1 ∧ (1 : Int) = 3) ∨ ((2 : Int) = 2 ∧ (1 : Int) = 1) ∨
      ((2 : Int) = 3 ∧ (1 : Int) = 2) → rpsOutcome 2 1 = .userWins) ∧
    (((2 : Int) = 1 ∧ (1 : Int) = 2) ∨ ((2 : Int) = 2 ∧ (1 : Int) = 3) ∨
      ((2 : Int) = 3 ∧ (1 : Int) = 1) → rpsOutcome 2 1 = .computerWins) ∧
    ∀ random : RandomSource, ((random.rand.1 % 3 + 1 : Nat) : Int) = 1 →
      (RockPaperScissorsGame.round 2 random).1 =
        [.computerChose 1, .result (rpsOutcome 2 1)] :=
  rpsOutcome_rule 2 1 (Or.inr (Or.inl rfl)) (Or.inl rfl)

/-! ## Number guessing -/

/-- C10: for every hidden target (those in [1, 100] included) and the game not
over, one step of the loop on the guess `guess` does the following. A guess below 1 or above 100 is
rejected: only the invalid-guess line is written and the game is unchanged.
Every other guess leaves the target unchanged and writes exactly one of too
low (iff `guess` is below the target), too high (iff above) and correct (iff
equal); `gameOver` is true afterwards if and only if the guess equals the
target. -/
theorem NumberGuessingGame.loopBody_feedback (g : NumberGuessingGame) (guess : Int)
    (hover : g.gameOver = false) :
    ((guess < 1 ∨ guess > 100) → g.loopBody guess = (g, [.invalidGuess])) ∧
    (1 ≤ guess ∧ guess ≤ 100 →
      (g.loopBody guess).1.numberToGuess = g.numberToGuess ∧
      ((g.loopBody guess).2 = [.tooLow] ∨ (g.loopBody guess).2 = [.tooHigh] ∨
        (g.loopBody guess).2 = [.correct]) ∧
      ((g.loopBody guess).2 = [.tooLow] ↔ guess < g.numberToGuess) ∧
      ((g.loopBody guess).2 = [.tooHigh] ↔ guess > g.numberToGuess) ∧
      ((g.loopBody guess).2 = [.correct] ↔ guess = g.numberToGuess) ∧
      ((g.loopBody guess).1.gameOver = true ↔ guess = g.numberToGuess)) := by
  constructor
  · intro h
    simp only [NumberGuessingGame.loopBody, if_pos h]
  · intro h
    have hrange : ¬ (guess < 1 ∨ guess > 100) := by omega
    simp only [NumberGuessingGame.loopBody, if_neg hrange]
    by_cases h1 : guess < g.numberToGuess
    · simp only [if_pos h1]
      simp [hover]
      omega
    · by_cases h2 : guess > g.numberToGuess
      · simp only [if_neg h1, if_pos h2]
        simp [hover]
        omega
      · simp only [if_neg h1, if_neg h2]
        simp
        omega

/-- Witness for C10: the game whose target is 42, as built from the random
value 141. -/
theorem NumberGuessingGame.loopBody_feedback_witness :
    (((50 : Int) < 1 ∨ (50 : Int) > 100) →
      (NumberGuessingGame.new 141).loopBody 50 = (NumberGuessingGame.new 141, [.invalidGuess])) ∧
    ((1 : Int) ≤ 50 ∧ (50 : Int) ≤ 100 →
      ((NumberGuessingGame.new 141).loopBody 50).1.numberToGuess =
        (NumberGuessingGame.new 141).numberToGuess ∧
      (((NumberGuessingGame.new 141).loopBody 50).2 = [.tooLow] ∨
        ((NumberGuessingGame.new 141).loopBody 50).2 = [.tooHigh] ∨
        ((NumberGuessingGame.new 141).loopBody 50).2 = [.correct]) ∧
      (((NumberGuessingGame.new 141).loopBody 50).2 = [.tooLow] ↔
        50 < (NumberGuessingGame.new 141).numberToGuess) ∧
      (((NumberGuessingGame.new 141).loopBody 50).2 = [.tooHigh] ↔
        50 > (NumberGuessingGame.new 141).numberToGuess) ∧
      (((NumberGuessingGame.new 141).loopBody 50).2 = [.correct] ↔
        50 = (NumberGuessingGame.new 141).numberToGuess) ∧
      (((NumberGuessingGame.new 141).loopBody 50).1.gameOver = true ↔
        50 = (NumberGuessingGame.new 141).numberToGuess)) :=
  NumberGuessingGame.loopBody_feedback (NumberGuessingGame.new 141) 50 rfl

/-! ## Calculations -/

/-- C13: for every device, operands and description, `performAndStoreCalculation`
appends exactly the one entry (description, value) to the end of the calculation
log, where the value is the one `calculate` returns in that state: the result of
the installed calculator, or the sentinel 0.0 when none is installed (the entry
is stored in that case too); the earlier entries, the contacts and the installed
calculator and game are unchanged. -/
theorem MobilePhone.performAndStoreCalculation_appends (p : MobilePhone)
    (operand1 operand2 : Float) (description : String) :
    (p.performAndStoreCalculation operand1 operand2 description).calculatorResults =
      p.calculatorResults ++ [(description, (p.calculate operand1 operand2).value)] ∧
    (p.calculate operand1 operand2).value =
      (match p.calculator with
       | some calculator => calculator.calculate operand1 operand2
       | none => 0.0) ∧
    (p.calculate operand1 operand2).noCalculator = p.calculator.isNone ∧
    (p.performAndStoreCalculation operand1 operand2 description).contacts = p.contacts ∧
    (p.performAndStoreCalculation operand1 operand2 description).calculator = p.calculator ∧
    (p.performAndStoreCalculation operand1 operand2 description).game = p.game := by
  obtain ⟨contacts, calculator, game, log⟩ := p
  cases calculator <;> exact ⟨rfl, rfl, rfl, rfl, rfl, rfl⟩

/-- C14: for all doubles `a` and `b` the basic calculator returns `a + b` and the
scientific calculator `a * b`; and after `setCalculator(c)`, whatever was
installed before, `calculate(a, b)` on the device returns what `c` computes,
writes no complaint and leaves the device as `setCalculator` left it, which
differs from the device before only in the installed calculator. -/
theorem MobilePhone.setCalculator_calculate (p : MobilePhone) (c : Calculator) (a b : Float) :
    Calculator.basic.calculate a b = a + b ∧
    Calculator.scientific.calculate a b = a * b ∧
    ((p.setCalculator (some c)).calculate a b).value = c.calculate a b ∧
    ((p.setCalculator (some c)).calculate a b).noCalculator = false ∧
    ((p.setCalculator (some c)).calculate a b).phone = p.setCalculator (some c) ∧
    (p.setCalculator (some c)).contacts = p.contacts ∧
    (p.setCalculator (some c)).game = p.game ∧
    (p.setCalculator (some c)).calculatorResults = p.calculatorResults :=
  ⟨rfl, rfl, rfl, rfl, rfl, rfl, rfl, rfl⟩

/-! ## Loading a file into a device -/

theorem splitOnP_takeWord (l : List Char) :
    l.splitOnP isspace =
      (takeWord l).1 :: (match (takeWord l).2 with
        | [] => []
        | _ :: ds => ds.splitOnP isspace) := by
  induction l with
  | nil => rfl
  | cons c cs ih =>
    rw [List.splitOnP_cons]
    by_cases hc : isspace c = true
    · simp [takeWord, hc]
    · simp only [hc, Bool.false_eq_true, if_false, takeWord]
      rw [ih]
      rfl

theorem takeWord_rest_head (l : List Char) (d : Char) (ds : List Char)
    (h : (takeWord l).2 = d :: ds) : isspace d = true := by
  induction l with
  | nil => simp [takeWord] at h
  | cons c cs ih =>
    simp only [takeWord] at h
    split at h
    · rename_i hc
      simp only [List.cons.injEq] at h
      rw [← h.1]
      exact hc
    · exact ih h

theorem fileWords_space (c : Char) (cs : List Char) (hc : isspace c = true) :
    fileWords (c :: cs) = fileWords cs := by
  simp [fileWords, List.splitOnP_cons, hc]

theorem fileWords_skipSpace (l : List Char) : fileWords l = fileWords (skipSpace l) := by
  induction l with
  | nil => rfl
  | cons c cs ih =>
    simp only [skipSpace]
    split
    · rename_i hc
      rw [fileWords_space c cs hc, ih]
    · rfl

theorem fileWords_word (c : Char) (cs : List Char) (hc : isspace c = false) :
    fileWords (c :: cs) = (takeWord (c :: cs)).1 :: fileWords (takeWord (c :: cs)).2 := by
  have hne : (takeWord (c :: cs)).1 ≠ [] := by simp [takeWord, hc]
  have hsplit := splitOnP_takeWord (c :: cs)
  unfold fileWords
  rw [hsplit]
  have hhead : (!(takeWord (c :: cs)).1.isEmpty) = true := by
    cases h : (takeWord (c :: cs)).1 with
    | nil => exact absurd h hne
    | cons _ _ => rfl
  rw [List.filter_cons, if_pos hhead]
  congr 1
  cases hr : (takeWord (c :: cs)).2 with
  | nil => rfl
  | cons d ds =>
    have hd := takeWord_rest_head _ d ds hr
    simp [List.splitOnP_cons, hd]

theorem fileWords_of_skipSpace_nil (l : List Char) (h : skipSpace l = []) :
    fileWords l = [] := by
  rw [fileWords_skipSpace, h]
  rfl

theorem fileWords_of_skipSpace_cons (l : List Char) (c : Char) (cs : List Char)
    (h : skipSpace l = c :: cs) :
    fileWords l = (takeWord (c :: cs)).1 :: fileWords (takeWord (c :: cs)).2 := by
  rw [fileWords_skipSpace, h]
  exact fileWords_word c cs (skipSpace_head l c cs h)

theorem loadLoop_fileWords : ∀ (fuel : Nat) (text : List Char) (contact : Contact)
    (acc : List Contact), text.length < fuel → contact.messages = [] →
    loadLoop fuel { rest := text, fail := false } contact acc =
      some (acc ++ pairContacts (fileWords text))
  | 0, _, _, _, h, _ => absurd h (Nat.not_lt_zero _)
  | fuel + 1, text, contact, acc, hfuel, hmsg => by
    cases h1 : skipSpace text with
    | nil =>
      rw [fileWords_of_skipSpace_nil text h1]
      simp [loadLoop, extractContact, extractString, h1, pairContacts]
    | cons c cs =>
      rw [fileWords_of_skipSpace_cons text c cs h1]
      have hlen1 : (takeWord (c :: cs)).2.length < text.length := by
        have h2 := takeWord_length_lt c cs (skipSpace_head text c cs h1)
        have h3 := skipSpace_length text
        rw [h1] at h3
        omega
      cases h2 : skipSpace (takeWord (c :: cs)).2 with
      | nil =>
        rw [fileWords_of_skipSpace_nil _ h2]
        simp [loadLoop, extractContact, extractString, h1, h2, pairContacts]
      | cons d ds =>
        rw [fileWords_of_skipSpace_cons _ d ds h2]
        have hlen2 : (takeWord (d :: ds)).2.length < (takeWord (c :: cs)).2.length := by
          have h3 := takeWord_length_lt d ds (skipSpace_head _ d ds h2)
          have h4 := skipSpace_length (takeWord (c :: cs)).2
          rw [h2] at h4
          omega
        have hext : extractContact { rest := text, fail := false } contact =
            ({ rest := (takeWord (d :: ds)).2, fail := false },
             Contact.new (String.mk (takeWord (c :: cs)).1)
               (String.mk (takeWord (d :: ds)).1)) := by
          simp [extractContact, extractString, h1, h2, Contact.new, hmsg]
        have ih := loadLoop_fileWords fuel (takeWord (d :: ds)).2
          (Contact.new (String.mk (takeWord (c :: cs)).1) (String.mk (takeWord (d :: ds)).1))
          (acc ++ [Contact.new (String.mk (takeWord (c :: cs)).1)
            (String.mk (takeWord (d :: ds)).1)]) (by omega) rfl
        simp only [loadLoop, hext, Bool.false_eq_true, if_false, ih, pairContacts]
        simp

theorem pairContacts_messages (ws : List (List Char)) :
    ∀ c ∈ pairContacts ws, c.messages = [] := by
  induction ws using pairContacts.induct with
  | case1 n ph rest ih =>
    intro c hc
    simp only [pairContacts, List.mem_cons] at hc
    rcases hc with rfl | hc
    · rfl
    · exact ih c hc
  | case2 ws h =>
    intro c hc
    unfold pairContacts at hc
    split at hc
    · rename_i n ph rest
      exact absurd rfl (h n ph rest)
    · simp at hc

theorem pairContacts_length (ws : List (List Char)) :
    (pairContacts ws).length = ws.length / 2 := by
  induction ws using pairContacts.induct with
  | case1 n ph rest ih =>
    simp only [pairContacts, List.length_cons, ih]
    omega
  | case2 ws h =>
    unfold pairContacts
    split
    · rename_i n ph rest
      exact absurd rfl (h n ph rest)
    · match ws, h with
      | [], _ => rfl
      | [_], _ => simp
      | n :: ph :: rest, h => exact absurd rfl (h n ph rest)

/-- C15: for every device and every text of the file, `loadContactsFromFile`
returns the device with its contact list followed by one new contact per
complete (name, phoneNumber) pair of consecutive words of the text, in the order
of the file; the contacts present before keep their place, fields and
histories, every loaded contact has an empty history, and nothing else of the
device changes. No name is compared with the names present: loading the line
"Bob 999" into the device with the contacts Bob, Alice, Bob adds a third Bob. -/
theorem MobilePhone.loadContactsFromFile_appends (p : MobilePhone) (text : List Char) :
    p.loadContactsFromFile (some text) =
      some { p with contacts := p.contacts ++ pairContacts (fileWords text) } ∧
    (∀ c ∈ pairContacts (fileWords text), c.messages = []) ∧
    (pairContacts (fileWords text)).length = (fileWords text).length / 2 ∧
    (duplicateBobs.loadContactsFromFile (some "Bob 999\n".data)).map
        (fun q => q.contacts.map fun c => (c.name, c.phoneNumber, c.messages)) =
      some [("Bob", "111", []), ("Alice", "222", []), ("Bob", "333", []),
            ("Bob", "999", [])] := by
  refine ⟨?_, pairContacts_messages _, pairContacts_length _, by decide⟩
  simp only [MobilePhone.loadContactsFromFile]
  rw [loadLoop_fileWords (text.length + 1) text (Contact.new "" "") p.contacts
    (Nat.lt_succ_self _) rfl]
  rfl

/-- C17: the single contact named "John Smith" with the number 111 has a space in
its name; the text saved for it is read back as the one contact named "John"
with the number "Smith", which is not the original (name, phoneNumber)
sequence. -/
theorem MobilePhone.roundtrip_whitespace_desync :
    (∃ c ∈ (MobilePhone.new.addContact (Contact.new "John Smith" "111")).contacts,
      ¬ NoSpace c.name) ∧
    (MobilePhone.new.loadContactsFromFile
      ((MobilePhone.new.addContact (Contact.new "John Smith" "111")).saveContactsToFile
        true)).map (fun q => q.contacts.map fun c => (c.name, c.phoneNumber)) =
      some [("John", "Smith")] ∧
    (MobilePhone.new.loadContactsFromFile
      ((MobilePhone.new.addContact (Contact.new "John Smith" "111")).saveContactsToFile
        true)).map (fun q => q.contacts.map fun c => (c.name, c.phoneNumber)) ≠
      some ((MobilePhone.new.addContact (Contact.new "John Smith" "111")).contacts.map
        fun c => (c.name, c.phoneNumber)) := by
  refine ⟨⟨Contact.new "John Smith" "111", by decide, ?_⟩, by decide, by decide⟩
  intro h
  have := h ' ' (by decide)
  exact absurd this (by decide)

/-! ## Random draws and the rule of rock, paper, scissors -/

/-- C18: for every value `r` of the random source the target `r % 100 + 1` of a
new number guessing game lies in [1, 100] and the computer's choice
`r % 3 + 1` in a round lies in {1, 2, 3}; every target in [1, 100] and every
choice in {1, 2, 3} arises from some value; a round with a valid user choice
draws exactly one value; and a round whose user choice is outside {1, 2, 3} is
rejected with the random source untouched. -/
theorem random_draws_in_domain :
    (∀ r : Nat, (NumberGuessingGame.new r).numberToGuess = ((r % 100 + 1 : Nat) : Int) ∧
      1 ≤ (NumberGuessingGame.new r).numberToGuess ∧
      (NumberGuessingGame.new r).numberToGuess ≤ 100) ∧
    (∀ t : Int, 1 ≤ t → t ≤ 100 → ∃ r : Nat, (NumberGuessingGame.new r).numberToGuess = t) ∧
    (∀ (u : Int) (random : RandomSource), 1 ≤ u → u ≤ 3 →
      ∃ c : Int, c = ((random.values random.drawn % 3 + 1 : Nat) : Int) ∧ 1 ≤ c ∧ c ≤ 3 ∧
        (RockPaperScissorsGame.round u random).1 =
          [.computerChose c, .result (rpsOutcome u c)] ∧
        (RockPaperScissorsGame.round u random).2.drawn = random.drawn + 1 ∧
        (RockPaperScissorsGame.round u random).2.values = random.values) ∧
    (∀ (u c : Int), 1 ≤ u → u ≤ 3 → 1 ≤ c → c ≤ 3 →
      ∃ random : RandomSource,
        (RockPaperScissorsGame.round u random).1 =
          [.computerChose c, .result (rpsOutcome u c)]) ∧
    (∀ (u : Int) (random : RandomSource), u < 1 ∨ u > 3 →
      RockPaperScissorsGame.round u random = ([.invalidChoice], random)) := by
  refine ⟨?_, ?_, ?_, ?_, ?_⟩
  · intro r
    refine ⟨rfl, ?_, ?_⟩ <;> simp only [NumberGuessingGame.new] <;> omega
  · intro t h1 h2
    refine ⟨(t - 1).toNat, ?_⟩
    simp only [NumberGuessingGame.new]
    omega
  · intro u random h1 h2
    have hrange : ¬ (u < 1 ∨ u > 3) := by omega
    refine ⟨_, rfl, by omega, by omega, ?_, ?_, ?_⟩ <;>
      simp only [RockPaperScissorsGame.round, if_neg hrange, RandomSource.rand]
  · intro u c h1 h2 h3 h4
    have hrange : ¬ (u < 1 ∨ u > 3) := by omega
    refine ⟨{ values := fun _ => (c - 1).toNat, drawn := 0 }, ?_⟩
    have hc : (((c - 1).toNat % 3 + 1 : Nat) : Int) = c := by omega
    simp only [RockPaperScissorsGame.round, if_neg hrange, RandomSource.rand, hc]
  · intro u random h
    simp only [RockPaperScissorsGame.round, if_pos h]

/-- Witness for C18: the target 42 arises from some value of the random source. -/
theorem random_draws_in_domain_witness :
    ∃ r : Nat, (NumberGuessingGame.new r).numberToGuess = 42 :=
  random_draws_in_domain.2.1 42 (by decide) (by decide)

/-- C19: for all choices `u` and `c` in {1, 2, 3} the user wins with (u, c) if and
only if the computer wins with (c, u); (u, c) is a draw if and only if (c, u)
is; the user wins exactly when (u - c) mod 3 = 1; and every choice beats
exactly one choice and loses to exactly one. -/
theorem rpsOutcome_cyclic (u c : Int) (hu : u = 1 ∨ u = 2 ∨ u = 3)
    (hc : c = 1 ∨ c = 2 ∨ c = 3) :
    (rpsOutcome u c = .userWins ↔ rpsOutcome c u = .computerWins) ∧
    (rpsOutcome u c = .draw ↔ rpsOutcome c u = .draw) ∧
    (rpsOutcome u c = .userWins ↔ (u - c) % 3 = 1) ∧
    (∃ w : Int, (w = 1 ∨ w = 2 ∨ w = 3) ∧ rpsOutcome u w = .userWins ∧
      ∀ x : Int, (x = 1 ∨ x = 2 ∨ x = 3) → rpsOutcome u x = .userWins → x = w) ∧
    (∃ l : Int, (l = 1 ∨ l = 2 ∨ l = 3) ∧ rpsOutcome u l = .computerWins ∧
      ∀ x : Int, (x = 1 ∨ x = 2 ∨ x = 3) → rpsOutcome u x = .computerWins → x = l) := by
  refine ⟨?_, ?_, ?_, ?_, ?_⟩
  · rcases hu with rfl | rfl | rfl <;> rcases hc with rfl | rfl | rfl <;> decide
  · rcases hu with rfl | rfl | rfl <;> rcases hc with rfl | rfl | rfl <;> decide
  · rcases hu with rfl | rfl | rfl <;> rcases hc with rfl | rfl | rfl <;> decide
  · rcases hu with rfl | rfl | rfl
    · exact ⟨3, by decide, by decide, fun x hx => by
        rcases hx with rfl | rfl | rfl <;> decide⟩
    · exact ⟨1, by decide, by decide, fun x hx => by
        rcases hx with rfl | rfl | rfl <;> decide⟩
    · exact ⟨2, by decide, by decide, fun x hx => by
        rcases hx with rfl | rfl | rfl <;> decide⟩
  · rcases hu with rfl | rfl | rfl
    · exact ⟨2, by decide, by decide, fun x hx => by
        rcases hx with rfl | rfl | rfl <;> decide⟩
    · exact ⟨3, by decide, by decide, fun x hx => by
        rcases hx with rfl | rfl | rfl <;> decide⟩
    · exact ⟨1, by decide, by decide, fun x hx => by
        rcases hx with rfl | rfl | rfl <;> decide⟩

/-- Witness for C19: Scissors against Paper. -/
theorem rpsOutcome_cyclic_witness :
    (rpsOutcome 3 2 = .userWins ↔ rpsOutcome 2 3 = .computerWins) ∧
    (rpsOutcome 3 2 = .draw ↔ rpsOutcome 2 3 = .draw) ∧
    (rpsOutcome 3 2 = .userWins ↔ ((3 : Int) - 2) % 3 = 1) ∧
    (∃ w : Int, (w = 1 ∨ w = 2 ∨ w = 3) ∧ rpsOutcome 3 w = .userWins ∧
      ∀ x : Int, (x = 1 ∨ x = 2 ∨ x = 3) → rpsOutcome 3 x = .userWins → x = w) ∧
    (∃ l : Int, (l = 1 ∨ l = 2 ∨ l = 3) ∧ rpsOutcome 3 l = .computerWins ∧
      ∀ x : Int, (x = 1 ∨ x = 2 ∨ x = 3) → rpsOutcome 3 x = .computerWins → x = l) :=
  rpsOutcome_cyclic 3 2 (Or.inr (Or.inr rfl)) (Or.inr (Or.inl rfl))

/-! ## Turn order and the length of a session of tic-tac-toe -/

theorem countP_update {α : Type} [DecidableEq α] (l : List α) (hl : l.Nodup) (x : α)
    (hx : x ∈ l) (f f2 : α → Bool) (hoff : ∀ y, y ≠ x → f2 y = f y) (hold : f x = false)
    (hnew : f2 x = true) : l.countP f2 = l.countP f + 1 := by
  induction l with
  | nil => simp at hx
  | cons y ys ih =>
    have hnd := List.nodup_cons.1 hl
    by_cases hyx : y = x
    · subst hyx
      have hcongr : ys.countP f2 = ys.countP f := by
        apply List.countP_congr
        intro z hz
        have hzy : z ≠ y := fun h => hnd.1 (h ▸ hz)
        rw [hoff z hzy]
      rw [List.countP_cons_of_pos _ _ hnew,
        List.countP_cons_of_neg _ _ (by simp [hold]), hcongr]
    · have hxys : x ∈ ys := by
        rcases List.mem_cons.1 hx with h | h
        · exact absurd h.symm hyx
        · exact h
      have ih2 := ih hnd.2 hxys
      simp only [List.countP_cons, hoff y hyx, ih2]
      omega

theorem countP_unchanged {α : Type} (l : List α) (f f2 : α → Bool)
    (h : ∀ y, f2 y = f y) : l.countP f2 = l.countP f := by
  have : f2 = f := funext h
  rw [this]

theorem allCells_nodup : allCells.Nodup := by decide

theorem mem_allCells (x : Fin 3 × Fin 3) : x ∈ allCells := by
  revert x
  decide

theorem setCell_apply (b : Board) (i j : Fin 3) (p : Char) (y : Fin 3 × Fin 3) :
    setCell b (i.val : Int) (j.val : Int) p y.1 y.2 = if y = (i, j) then p else b y.1 y.2 := by
  obtain ⟨a, c⟩ := y
  simp only [setCell, Prod.mk.injEq]
  have h1 : ((a.val : Int) = (i.val : Int)) ↔ a = i := by
    rw [Int.ofNat_inj]; exact Fin.val_inj
  have h2 : ((c.val : Int) = (j.val : Int)) ↔ c = j := by
    rw [Int.ofNat_inj]; exact Fin.val_inj
  simp only [h1, h2]

theorem countMarks_setCell (b : Board) (i j : Fin 3) (p : Char) (hb : b i j = ' ')
    (hp : p ≠ ' ') :
    countMarks (setCell b (i.val : Int) (j.val : Int) p) = countMarks b + 1 := by
  unfold countMarks
  apply countP_update allCells allCells_nodup (i, j) (mem_allCells _)
  · intro y hy
    rw [setCell_apply, if_neg hy]
  · simp [hb]
  · rw [setCell_apply, if_pos rfl]
    simpa using hp

theorem countCells_setCell_same (b : Board) (i j : Fin 3) (p : Char) (hb : b i j = ' ')
    (hp : p ≠ ' ') :
    countCells (setCell b (i.val : Int) (j.val : Int) p) p = countCells b p + 1 := by
  unfold countCells
  apply countP_update allCells allCells_nodup (i, j) (mem_allCells _)
  · intro y hy
    rw [setCell_apply, if_neg hy]
  · simp only [hb, beq_eq_false_iff_ne, ne_eq]
    exact fun h => hp h.symm
  · rw [setCell_apply, if_pos rfl]
    simp

theorem countCells_setCell_other (b : Board) (i j : Fin 3) (p ch : Char) (hb : b i j = ' ')
    (hch : ch ≠ p) (hch2 : ch ≠ ' ') :
    countCells (setCell b (i.val : Int) (j.val : Int) p) ch = countCells b ch := by
  unfold countCells
  apply countP_unchanged
  intro y
  rw [setCell_apply]
  split
  · rename_i hy
    subst hy
    simp only [hb]
    have h1 : (p == ch) = false := by simpa using fun h => hch h.symm
    have h2 : ((' ' : Char) == ch) = false := by simpa using fun h => hch2 h.symm
    rw [h1, h2]
  · rfl

theorem countMarks_le (b : Board) : countMarks b ≤ 9 :=
  List.countP_le_length _

theorem isBoardFull_iff_countMarks (g : TicTacToe) :
    g.isBoardFull = true ↔ countMarks g.board = 9 := by
  rw [TicTacToe.isBoardFull_iff]
  have hlen : allCells.length = 9 := rfl
  unfold countMarks
  rw [← hlen, List.countP_eq_length]
  constructor
  · intro h cell _
    simpa using h cell.1 cell.2
  · intro h i j
    simpa using h (i, j) (mem_allCells _)

theorem TicTacToe.isMoveValid_cases (g : TicTacToe) (row col : Int) :
    g.isMoveValid row col = some true ∨ g.isMoveValid row col = some false := by
  rw [TicTacToe.isMoveValid_eq]
  cases decide (0 ≤ row ∧ row < 3 ∧ 0 ≤ col ∧ col < 3 ∧ cellAt g.board row col = some ' ')
  · exact Or.inr rfl
  · exact Or.inl rfl

theorem TicTacToe.loopBody_invalid (g : TicTacToe) (row col : Int)
    (hv : g.isMoveValid row col = some false) :
    g.loopBody row col = some { game := g, out := [.invalidMove], broke := false } := by
  simp only [TicTacToe.loopBody, hv]

theorem TicTacToe.loopBody_valid (g : TicTacToe) (row col : Int)
    (hv : g.isMoveValid row col = some true) :
    g.loopBody row col = some
      (if (g.placeMark row col).checkWin.1 = true then
        { game := { board := (g.placeMark row col).board,
                    currentPlayer := g.currentPlayer, gameOver := true },
          out := [.board (g.placeMark row col).board, .wins g.currentPlayer],
          broke := false }
      else if (g.placeMark row col).isBoardFull = true then
        { game := g.placeMark row col,
          out := [.board (g.placeMark row col).board, .draw], broke := true }
      else
        { game := (g.placeMark row col).switchPlayer, out := [], broke := false }) := by
  simp only [TicTacToe.loopBody, hv, TicTacToe.checkWin_snd]
  by_cases hw : (g.placeMark row col).checkWin.1 = true
  · simp only [hw, if_true]
    rfl
  · simp only [hw, Bool.false_eq_true, if_false]
    by_cases hf : (g.placeMark row col).isBoardFull = true
    · simp only [hf, if_true]
    · simp only [hf, Bool.false_eq_true, if_false]

/-- What an accepted move does to the game, whichever of the three branches is
taken. -/
theorem TicTacToe.loopBody_valid_facts (g : TicTacToe) (row col : Int) (r : TttStep)
    (hv : g.isMoveValid row col = some true) (hr : g.loopBody row col = some r) :
    r.game.board = setCell g.board row col g.currentPlayer ∧
    r.out.countP TttOut.isInvalidMove = 0 ∧
    (r.game.gameOver = false → r.game.isBoardFull = false →
      r.game.currentPlayer = if g.currentPlayer = 'X' then 'O' else 'X') ∧
    (r.broke = true → r.game.isBoardFull = true) ∧
    (r.broke = false → r.game.gameOver = false → r.game.isBoardFull = false) := by
  rw [TicTacToe.loopBody_valid g row col hv] at hr
  simp only [Option.some.injEq] at hr
  subst hr
  by_cases hw : (g.placeMark row col).checkWin.1 = true
  · rw [if_pos hw]
    exact ⟨rfl, rfl, fun h => by simp at h, fun h => by simp at h, fun _ h => by simp at h⟩
  · rw [if_neg hw]
    by_cases hf : (g.placeMark row col).isBoardFull = true
    · rw [if_pos hf]
      exact ⟨rfl, rfl, fun _ h => by simp [hf] at h, fun _ => hf, fun h => by simp at h⟩
    · rw [if_neg hf]
      have hf2 : (g.placeMark row col).switchPlayer.isBoardFull = false := by
        simpa [TicTacToe.switchPlayer, TicTacToe.isBoardFull] using hf
      exact ⟨rfl, rfl, fun _ _ => rfl, fun h => by simp at h, fun _ _ => hf2⟩

theorem TicTacToe.ReachedAfter.reachable {k : Nat} {g : TicTacToe}
    (h : TicTacToe.ReachedAfter k g) : g.Reachable := by
  induction h with
  | fresh => exact TicTacToe.Reachable.fresh
  | accepted k g row col r _ hover _ hr ih =>
    exact TicTacToe.Reachable.step g row col r ih hover hr
  | rejected k g row col r _ hover _ hr ih =>
    exact TicTacToe.Reachable.step g row col r ih hover hr

theorem TicTacToe.ReachedAfter.counts {k : Nat} {g : TicTacToe}
    (h : TicTacToe.ReachedAfter k g) :
    countCells g.board 'X' = (k + 1) / 2 ∧ countCells g.board 'O' = k / 2 ∧
    countMarks g.board = k ∧
    (g.gameOver = false → g.isBoardFull = false →
      g.currentPlayer = if k % 2 = 0 then 'X' else 'O') := by
  induction h with
  | fresh => exact ⟨by decide, by decide, by decide, fun _ _ => rfl⟩
  | accepted k g row col r _ hover hv hr ih =>
    obtain ⟨hx, ho, hm, hcur⟩ := ih
    obtain ⟨i, j, hi, hj, hb⟩ := TicTacToe.isMoveValid_true g row col hv
    have hnotfull : g.isBoardFull = false := by
      cases hf : g.isBoardFull with
      | false => rfl
      | true =>
        have := TicTacToe.isMoveValid_full g hf row col
        rw [hv] at this
        simp at this
    have hp := hcur hover hnotfull
    obtain ⟨hboard, _, hnext, _, _⟩ := TicTacToe.loopBody_valid_facts g row col r hv hr
    rw [← hi, ← hj] at hboard
    rw [hboard]
    by_cases hk : k % 2 = 0
    · rw [if_pos hk] at hp
      rw [hp]
      refine ⟨?_, ?_, ?_, ?_⟩
      · rw [countCells_setCell_same _ _ _ _ hb (by decide), hx]
        omega
      · rw [countCells_setCell_other _ _ _ _ _ hb (by decide) (by decide), ho]
        omega
      · rw [countMarks_setCell _ _ _ _ hb (by decide), hm]
      · intro h1 h2
        rw [hnext h1 h2, hp]
        have : ¬ ((k + 1) % 2 = 0) := by omega
        simp [this]
    · rw [if_neg hk] at hp
      rw [hp]
      refine ⟨?_, ?_, ?_, ?_⟩
      · rw [countCells_setCell_other _ _ _ _ _ hb (by decide) (by decide), hx]
        omega
      · rw [countCells_setCell_same _ _ _ _ hb (by decide), ho]
        omega
      · rw [countMarks_setCell _ _ _ _ hb (by decide), hm]
      · intro h1 h2
        rw [hnext h1 h2, hp]
        have : (k + 1) % 2 = 0 := by omega
        simp [this]
  | rejected k g row col r _ hover hv hr ih =>
    rw [TicTacToe.loopBody_invalid g row col hv] at hr
    simp only [Option.some.injEq] at hr
    subst hr
    exact ih

theorem TicTacToe.play_cons_broke (g : TicTacToe) (row col : Int) (rest : List (Int × Int))
    (r : TttStep) (hover : g.gameOver = false) (hr : g.loopBody row col = some r)
    (hb : r.broke = true) :
    g.play ((row, col) :: rest) =
      { game := r.game, input := rest,
        out := [.board g.board, .prompt g.currentPlayer] ++ r.out, status := .returned } := by
  simp only [TicTacToe.play, TicTacToe.isGameOver, hover, hr, hb, Bool.false_eq_true, if_false,
    if_true]

theorem TicTacToe.play_cons_continue (g : TicTacToe) (row col : Int)
    (rest : List (Int × Int)) (r : TttStep) (hover : g.gameOver = false)
    (hr : g.loopBody row col = some r) (hb : r.broke = false) :
    g.play ((row, col) :: rest) =
      { game := (r.game.play rest).game, input := (r.game.play rest).input,
        out := [.board g.board, .prompt g.currentPlayer] ++ r.out ++ (r.game.play rest).out,
        status := (r.game.play rest).status } := by
  simp only [TicTacToe.play, TicTacToe.isGameOver, hover, hr, hb, Bool.false_eq_true, if_false]

theorem countP_step (b : Board) (p : Char) (out1 out2 : List TttOut) :
    List.countP TttOut.isInvalidMove ([TttOut.board b, TttOut.prompt p] ++ out1 ++ out2) =
      List.countP TttOut.isInvalidMove out1 + List.countP TttOut.isInvalidMove out2 := by
  simp only [List.countP_append, List.countP_cons, List.countP_nil, TttOut.isInvalidMove]
  simp

theorem TicTacToe.loopBody_some (g : TicTacToe) (row col : Int) :
    ∃ r, g.loopBody row col = some r ∧
      ((g.isMoveValid row col = some true ∧ r.out.countP TttOut.isInvalidMove = 0) ∨
       (g.isMoveValid row col = some false ∧ r.out.countP TttOut.isInvalidMove = 1 ∧
         r.game = g ∧ r.broke = false)) := by
  rcases TicTacToe.isMoveValid_cases g row col with hv | hv
  · refine ⟨_, TicTacToe.loopBody_valid g row col hv, Or.inl ⟨hv, ?_⟩⟩
    exact (TicTacToe.loopBody_valid_facts g row col _ hv
      (TicTacToe.loopBody_valid g row col hv)).2.1
  · exact ⟨_, TicTacToe.loopBody_invalid g row col hv, Or.inr ⟨hv, rfl, rfl, rfl⟩⟩

/-- The moves read by a call of `play` are the accepted and the rejected ones:
the unread inputs and the rejected moves together do not exceed the inputs. -/
theorem TicTacToe.play_reads (inputs : List (Int × Int)) :
    ∀ g : TicTacToe,
      (g.play inputs).input.length + (g.play inputs).rejected ≤ inputs.length := by
  induction inputs with
  | nil =>
    intro g
    unfold TicTacToe.play
    split <;> simp [TttRun.rejected, TttOut.isInvalidMove]
  | cons m rest ih =>
    intro g
    obtain ⟨row, col⟩ := m
    cases hover : g.gameOver with
    | true => simp [TicTacToe.play_gameOver g hover, TttRun.rejected]
    | false =>
      obtain ⟨r, hr, hcase⟩ := TicTacToe.loopBody_some g row col
      have ih2 := ih r.game
      cases hb : r.broke with
      | true =>
        have hzero : r.out.countP TttOut.isInvalidMove = 0 := by
          rcases hcase with ⟨_, h⟩ | ⟨_, _, _, h⟩
          · exact h
          · rw [hb] at h; simp at h
        rw [TicTacToe.play_cons_broke g row col rest r hover hr hb]
        have := countP_step g.board g.currentPlayer r.out []
        simp only [List.append_nil, List.countP_nil, Nat.add_zero] at this
        simp only [TttRun.rejected, this, hzero, List.length_cons]
        omega
      | false =>
        have hcount : r.out.countP TttOut.isInvalidMove ≤ 1 := by
          rcases hcase with ⟨_, h⟩ | ⟨_, h, _⟩ <;> omega
        rw [TicTacToe.play_cons_continue g row col rest r hover hr hb]
        simp only [TttRun.rejected, countP_step, List.length_cons] at ih2 ⊢
        omega

theorem TicTacToe.ReachedAfter.play_accepted (inputs : List (Int × Int)) :
    ∀ (k : Nat) (g : TicTacToe), TicTacToe.ReachedAfter k g →
      TicTacToe.ReachedAfter (k + (g.play inputs).accepted inputs) (g.play inputs).game := by
  induction inputs with
  | nil =>
    intro k g h
    have hsame : (g.play []).game = g := by
      unfold TicTacToe.play
      split <;> rfl
    have hzero : (g.play []).accepted [] = 0 := by simp [TttRun.accepted]
    rw [hsame, hzero]
    exact h
  | cons m rest ih =>
    intro k g h
    obtain ⟨row, col⟩ := m
    cases hover : g.gameOver with
    | true =>
      rw [TicTacToe.play_gameOver g hover]
      simp only [TttRun.accepted, TttRun.rejected, List.countP_nil, Nat.sub_self, Nat.sub_zero,
        Nat.add_zero]
      exact h
    | false =>
      obtain ⟨r, hr, hcase⟩ := TicTacToe.loopBody_some g row col
      have hreads := TicTacToe.play_reads rest r.game
      simp only [TttRun.rejected] at hreads
      rcases hcase with ⟨hv, hzero⟩ | ⟨hv, hone, hgame, hbroke⟩
      · have hnext := TicTacToe.ReachedAfter.accepted k g row col r h hover hv hr
        cases hb : r.broke with
        | true =>
          rw [TicTacToe.play_cons_broke g row col rest r hover hr hb]
          have hcnt := countP_step g.board g.currentPlayer r.out []
          simp only [List.append_nil, List.countP_nil, Nat.add_zero] at hcnt
          have hacc : rest.length + 1 - rest.length - 0 = 1 := by omega
          simp only [TttRun.accepted, TttRun.rejected, hcnt, hzero, List.length_cons, hacc]
          exact hnext
        | false =>
          rw [TicTacToe.play_cons_continue g row col rest r hover hr hb]
          have hrec := ih (k + 1) r.game hnext
          simp only [TttRun.accepted, TttRun.rejected] at hrec
          simp only [TttRun.accepted, TttRun.rejected, countP_step, hzero, List.length_cons,
            Nat.zero_add]
          have harith : k + (rest.length + 1 - (r.game.play rest).input.length -
              List.countP TttOut.isInvalidMove (r.game.play rest).out) =
              k + 1 + (rest.length - (r.game.play rest).input.length -
              List.countP TttOut.isInvalidMove (r.game.play rest).out) := by omega
          rw [harith]
          exact hrec
      · rw [TicTacToe.play_cons_continue g row col rest r hover hr hbroke]
        have hrec := ih k r.game (hgame ▸ h)
        simp only [TttRun.accepted, TttRun.rejected] at hrec
        simp only [TttRun.accepted, TttRun.rejected, countP_step, hone, List.length_cons]
        have harith : k + (rest.length + 1 - (r.game.play rest).input.length -
            (1 + List.countP TttOut.isInvalidMove (r.game.play rest).out)) =
            k + (rest.length - (r.game.play rest).input.length -
            List.countP TttOut.isInvalidMove (r.game.play rest).out) := by omega
        rw [harith]
        exact hrec

theorem TicTacToe.play_status (inputs : List (Int × Int)) :
    ∀ g : TicTacToe, (g.gameOver = false → g.isBoardFull = false) →
      (g.play inputs).status ≠ .undefined ∧
      ((g.play inputs).status = .awaitingInput →
        (g.play inputs).game.gameOver = false ∧ (g.play inputs).game.isBoardFull = false ∧
        (g.play inputs).input = []) := by
  induction inputs with
  | nil =>
    intro g hg
    cases hover : g.gameOver with
    | true => simp [TicTacToe.play_gameOver g hover]
    | false => simp [TicTacToe.play, TicTacToe.isGameOver, hover, hg hover]
  | cons m rest ih =>
    intro g hg
    obtain ⟨row, col⟩ := m
    cases hover : g.gameOver with
    | true => simp [TicTacToe.play_gameOver g hover]
    | false =>
      obtain ⟨r, hr, hcase⟩ := TicTacToe.loopBody_some g row col
      cases hb : r.broke with
      | true =>
        rw [TicTacToe.play_cons_broke g row col rest r hover hr hb]
        simp
      | false =>
        rw [TicTacToe.play_cons_continue g row col rest r hover hr hb]
        apply ih r.game
        rcases hcase with ⟨hv, _⟩ | ⟨_, _, hgame, _⟩
        · exact (TicTacToe.loopBody_valid_facts g row col r hv hr).2.2.2.2 hb
        · rw [hgame]; exact hg

theorem TicTacToe.play_returned_append (inputs : List (Int × Int)) :
    ∀ (g : TicTacToe) (extra : List (Int × Int)), (g.play inputs).status = .returned →
      g.play (inputs ++ extra) =
        { game := (g.play inputs).game, input := (g.play inputs).input ++ extra,
          out := (g.play inputs).out, status := .returned } := by
  induction inputs with
  | nil =>
    intro g extra h
    cases hover : g.gameOver with
    | true => simp [TicTacToe.play_gameOver g hover]
    | false => simp [TicTacToe.play, TicTacToe.isGameOver, hover] at h
  | cons m rest ih =>
    intro g extra h
    obtain ⟨row, col⟩ := m
    cases hover : g.gameOver with
    | true => simp [TicTacToe.play_gameOver g hover]
    | false =>
      obtain ⟨r, hr, _⟩ := TicTacToe.loopBody_some g row col
      cases hb : r.broke with
      | true =>
        rw [List.cons_append, TicTacToe.play_cons_broke g row col rest r hover hr hb,
          TicTacToe.play_cons_broke g row col (rest ++ extra) r hover hr hb]
      | false =>
        rw [TicTacToe.play_cons_continue g row col rest r hover hr hb] at h
        rw [List.cons_append, TicTacToe.play_cons_continue g row col rest r hover hr hb,
          TicTacToe.play_cons_continue g row col (rest ++ extra) r hover hr hb,
          ih r.game extra h]

theorem TicTacToe.play_suffix (inputs : List (Int × Int)) :
    ∀ g : TicTacToe, (g.play inputs).input <:+ inputs := by
  induction inputs with
  | nil =>
    intro g
    unfold TicTacToe.play
    split <;> exact List.suffix_refl _
  | cons m rest ih =>
    intro g
    obtain ⟨row, col⟩ := m
    cases hover : g.gameOver with
    | true =>
      rw [TicTacToe.play_gameOver g hover]
    | false =>
      obtain ⟨r, hr, _⟩ := TicTacToe.loopBody_some g row col
      cases hb : r.broke with
      | true =>
        rw [TicTacToe.play_cons_broke g row col rest r hover hr hb]
        exact List.suffix_cons _ _
      | false =>
        rw [TicTacToe.play_cons_continue g row col rest r hover hr hb]
        exact (ih r.game).trans (List.suffix_cons _ _)

theorem TicTacToe.play_new_counts (inputs : List (Int × Int)) :
    TicTacToe.ReachedAfter ((TicTacToe.new.play inputs).accepted inputs)
      (TicTacToe.new.play inputs).game ∧
    countMarks (TicTacToe.new.play inputs).game.board =
      (TicTacToe.new.play inputs).accepted inputs ∧
    (TicTacToe.new.play inputs).accepted inputs ≤ 9 := by
  have h := TicTacToe.ReachedAfter.play_accepted inputs 0 TicTacToe.new TicTacToe.ReachedAfter.fresh
  rw [Nat.zero_add] at h
  have hc := h.counts.2.2.1
  exact ⟨h, hc, hc ▸ countMarks_le _⟩

theorem TicTacToe.play_new_status (inputs : List (Int × Int)) :
    (TicTacToe.new.play inputs).status ≠ .undefined ∧
    ((TicTacToe.new.play inputs).status = .awaitingInput →
      (TicTacToe.new.play inputs).game.gameOver = false ∧
      (TicTacToe.new.play inputs).game.isBoardFull = false ∧
      (TicTacToe.new.play inputs).input = []) :=
  TicTacToe.play_status inputs TicTacToe.new (fun _ => by decide)

/-- C16: a freshly constructed game has nine empty cells, X to move and
`gameOver` false. In every state reached from it after `k` accepted moves the
board holds `k` marks, of which the X are as many as the O or one more; and when
a further move is accepted there, the (k+1)-th, it places X if k+1 is odd and O
if k+1 is even, on a cell that was empty, leaving every other cell as it was. -/
theorem TicTacToe.turn_order (k : Nat) (g : TicTacToe) (h : TicTacToe.ReachedAfter k g) :
    (countCells TicTacToe.new.board ' ' = 9 ∧ TicTacToe.new.currentPlayer = 'X' ∧
      TicTacToe.new.gameOver = false) ∧
    (countCells g.board 'X' = countCells g.board 'O' ∨
      countCells g.board 'X' = countCells g.board 'O' + 1) ∧
    countCells g.board 'X' + countCells g.board 'O' = k ∧
    countMarks g.board = k ∧
    ∀ row col : Int, g.isGameOver = false → g.isMoveValid row col = some true →
      g.currentPlayer = (if (k + 1) % 2 = 1 then 'X' else 'O') ∧
      cellAt g.board row col = some ' ' ∧
      cellAt (g.placeMark row col).board row col = some g.currentPlayer ∧
      (∀ i j : Fin 3, ¬ ((i.val : Int) = row ∧ (j.val : Int) = col) →
        (g.placeMark row col).board i j = g.board i j) ∧
      ∃ r, g.loopBody row col = some r ∧ r.game.board = (g.placeMark row col).board ∧
        TicTacToe.ReachedAfter (k + 1) r.game := by
  obtain ⟨hx, ho, hm, hcur⟩ := h.counts
  refine ⟨⟨by decide, rfl, rfl⟩, by omega, by omega, hm, ?_⟩
  intro row col hover hv
  have hnotfull : g.isBoardFull = false := by
    cases hf : g.isBoardFull with
    | false => rfl
    | true =>
      have := TicTacToe.isMoveValid_full g hf row col
      rw [hv] at this
      simp at this
  have hp := hcur hover hnotfull
  have hvalid := hv
  rw [TicTacToe.isMoveValid_eq] at hvalid
  simp only [Option.some.injEq, decide_eq_true_eq] at hvalid
  obtain ⟨h1, h2, h3, h4, hcell⟩ := hvalid
  have hr : 0 ≤ row ∧ row < 3 ∧ 0 ≤ col ∧ col < 3 := ⟨h1, h2, h3, h4⟩
  refine ⟨?_, hcell, ?_, ?_, ?_⟩
  · rw [hp]
    by_cases hk : k % 2 = 0
    · have : (k + 1) % 2 = 1 := by omega
      simp [hk, this]
    · have : ¬ ((k + 1) % 2 = 1) := by omega
      simp [hk, this]
  · simp only [cellAt, dif_pos hr, TicTacToe.placeMark, setCell, Option.some.injEq]
    rw [if_pos]
    constructor
    · simp; omega
    · simp; omega
  · intro i j hij
    simp only [TicTacToe.placeMark, setCell, if_neg hij]
  · refine ⟨_, TicTacToe.loopBody_valid g row col hv, ?_, ?_⟩
    · exact (TicTacToe.loopBody_valid_facts g row col _ hv
        (TicTacToe.loopBody_valid g row col hv)).1
    · exact TicTacToe.ReachedAfter.accepted k g row col _ h hover hv
        (TicTacToe.loopBody_valid g row col hv)

/-- Witness for C16: after the four accepted moves of `fourMoves` the board holds
two X and two O, and the fifth move, to (0, 2), places X. -/
theorem TicTacToe.turn_order_witness :
    countCells (TicTacToe.new.play fourMoves).game.board 'X' = 2 ∧
    countCells (TicTacToe.new.play fourMoves).game.board 'O' = 2 ∧
    (TicTacToe.new.play fourMoves).game.currentPlayer = (if (4 + 1) % 2 = 1 then 'X' else 'O') ∧
    cellAt (TicTacToe.new.play fourMoves).game.board 0 2 = some ' ' :=
  have h := TicTacToe.turn_order 4 (TicTacToe.new.play fourMoves).game
    ((show (TicTacToe.new.play fourMoves).accepted fourMoves = 4 by decide) ▸
      (TicTacToe.play_new_counts fourMoves).1)
  ⟨by decide, by decide, (h.2.2.2.2 0 2 (by decide) (by decide)).1,
    (h.2.2.2.2 0 2 (by decide) (by decide)).2.1⟩

/-- C20: for every list of input moves, a call of `play` on a fresh game accepts
at most nine moves; the number of non-empty cells afterwards equals the number
of accepted moves; every input is unread, rejected or accepted, the unread ones
being the end of the list; once nine moves have been accepted, or a line is
complete, the call has returned and whatever input follows stays unread; the
call never runs into undefined behaviour, and it is still waiting only when the
input is used up with fewer than nine moves accepted. Hence on an endless
sequence of moves in which a waiting call always reaches a further accepted
move, the call returns after finitely many inputs. -/
theorem TicTacToe.play_bounded (inputs : List (Int × Int)) :
    (TicTacToe.new.play inputs).accepted inputs ≤ 9 ∧
    countMarks (TicTacToe.new.play inputs).game.board =
      (TicTacToe.new.play inputs).accepted inputs ∧
    (TicTacToe.new.play inputs).input.length + (TicTacToe.new.play inputs).rejected +
      (TicTacToe.new.play inputs).accepted inputs = inputs.length ∧
    (TicTacToe.new.play inputs).input <:+ inputs ∧
    ((TicTacToe.new.play inputs).accepted inputs = 9 ∨
        HasLine (TicTacToe.new.play inputs).game.board →
      (TicTacToe.new.play inputs).status = .returned ∧
      ∀ extra : List (Int × Int), TicTacToe.new.play (inputs ++ extra) =
        { game := (TicTacToe.new.play inputs).game,
          input := (TicTacToe.new.play inputs).input ++ extra,
          out := (TicTacToe.new.play inputs).out, status := .returned }) ∧
    (TicTacToe.new.play inputs).status ≠ .undefined ∧
    ((TicTacToe.new.play inputs).status = .awaitingInput →
      (TicTacToe.new.play inputs).input = [] ∧
      (TicTacToe.new.play inputs).accepted inputs < 9) ∧
    ∀ moves : Nat → Int × Int,
      (∀ n, (TicTacToe.new.play (inputPrefix moves n)).status = .awaitingInput →
        ∃ m, (TicTacToe.new.play (inputPrefix moves n)).accepted (inputPrefix moves n) <
          (TicTacToe.new.play (inputPrefix moves m)).accepted (inputPrefix moves m)) →
      ∃ n, (TicTacToe.new.play (inputPrefix moves n)).status = .returned := by
  obtain ⟨hreach, hmarks, hle⟩ := TicTacToe.play_new_counts inputs
  obtain ⟨hundef, hwait⟩ := TicTacToe.play_new_status inputs
  have hreads := TicTacToe.play_reads inputs TicTacToe.new
  have hwait2 : (TicTacToe.new.play inputs).status = .awaitingInput →
      (TicTacToe.new.play inputs).input = [] ∧
      (TicTacToe.new.play inputs).accepted inputs < 9 := by
    intro hs
    obtain ⟨_, hfull, hin⟩ := hwait hs
    refine ⟨hin, ?_⟩
    have hne : countMarks (TicTacToe.new.play inputs).game.board ≠ 9 := by
      intro h9
      rw [(isBoardFull_iff_countMarks _).2 h9] at hfull
      simp at hfull
    omega
  refine ⟨hle, hmarks, ?_, TicTacToe.play_suffix inputs _, ?_, hundef, hwait2, ?_⟩
  · simp only [TttRun.accepted]
    omega
  · intro hdone
    have hret : (TicTacToe.new.play inputs).status = .returned := by
      cases hs : (TicTacToe.new.play inputs).status with
      | returned => rfl
      | undefined => exact absurd hs hundef
      | awaitingInput =>
        obtain ⟨hover, _, _⟩ := hwait hs
        rcases hdone with h9 | hline
        · have := (hwait2 hs).2
          omega
        · exact absurd hline (hreach.reachable.inv.noLine hover)
    exact ⟨hret, fun extra => TicTacToe.play_returned_append inputs _ extra hret⟩
  · intro moves hprogress
    by_contra hnever
    have hawait : ∀ n, (TicTacToe.new.play (inputPrefix moves n)).status = .awaitingInput := by
      intro n
      cases hs : (TicTacToe.new.play (inputPrefix moves n)).status with
      | returned => exact absurd ⟨n, hs⟩ hnever
      | undefined => exact absurd hs (TicTacToe.play_new_status _).1
      | awaitingInput => rfl
    have hgrow : ∀ k, ∃ n, k ≤
        (TicTacToe.new.play (inputPrefix moves n)).accepted (inputPrefix moves n) := by
      intro k
      induction k with
      | zero => exact ⟨0, Nat.zero_le _⟩
      | succ k ih =>
        obtain ⟨n, hn⟩ := ih
        obtain ⟨m, hm⟩ := hprogress n (hawait n)
        exact ⟨m, by omega⟩
    obtain ⟨n, hn⟩ := hgrow 10
    have := (TicTacToe.play_new_counts (inputPrefix moves n)).2.2
    omega

/-- Witness for C20: the nine moves of `drawMoves` are all accepted, so the call
has returned. -/
theorem TicTacToe.play_bounded_witness :
    (TicTacToe.new.play drawMoves).status = .returned :=
  ((TicTacToe.play_bounded drawMoves).2.2.2.2.1 (Or.inl (by decide))).1

end SmartMobile
